import Mathlib

set_option maxHeartbeats 1000000

/-
Verification development for the gofac dependency-injection container
(src/gofac.go, src/errors.go, src/enums.go).

The embedding mirrors the source:
 - `GoType` stands for `reflect.Type` as used by the container: opaque named
   types (`base`), interface types (`iface`), slice types (`slice`) and
   string-keyed map types (`smap`, i.e. `map[string]T`).
 - `Value` stands for `reflect.Value`: `invalid` is the zero `reflect.Value`
   (`IsValid() == false`); `obj id` is an allocated object identified by its
   allocation id (pointer identity); `vlist`/`vmap` are slice and map values.
 - `Factory` stands for a constructor function value together with its
   reflected signature (`ctorType.In(i)` / `ctorType.Out(i)`).  Calling the
   constructor is modelled as `build args n` where `n` is a fresh allocation
   counter value, so a Go constructor that allocates fresh state is one with
   `build args n = Value.obj n`.
 - `ServiceDef`, `Container` mirror the structs in gofac.go; Go maps become
   association lists; the `sync.Once` guarding the singleton slot becomes the
   `onceFired` flag; mutation becomes explicit state passing.
 - `cresolve` is `Container.resolve` (gofac.go:396-548), `sresolve` is
   `Scope.resolve` (gofac.go:574-767).  Both thread the container (for the
   singleton slot writes), the scope cache, and the allocation counter, and
   take a fuel argument for termination; Go's recursion depth is bounded by
   the number of registered services, so every real execution is reproduced
   at a large enough fuel.  The per-parameter assembly loop, which gofac.go
   duplicates verbatim in both resolvers (lines 440-531 and 650-741), is
   factored as `assembleParam`/`assembleParams`, parameterised by the
   recursive resolver exactly as the Go code closes over `c.resolve` resp.
   `s.resolve`.
-/

namespace Gofac

/-- Reflection-level type handles: opaque named types, interface types,
slice types and string-keyed map types, as distinguished by
`Kind()` checks in gofac.go. -/
inductive GoType where
  | base (n : Nat)
  | iface (n : Nat)
  | slice (elem : GoType)
  | smap (elem : GoType)
deriving DecidableEq

/-- `reflect.Value`: `invalid` is the zero Value, `obj id` an allocated
object identified by allocation id, `vlist`/`vmap` slice and map values. -/
inductive Value where
  | invalid
  | obj (id : Nat)
  | vlist (elems : List Value)
  | vmap (entries : List (String × Value))

/-- `reflect.Value.IsValid`. -/
def Value.IsValid : Value → Bool
  | .invalid => false
  | _ => true

/-- `GoType.Kind() == reflect.Interface`. -/
def GoType.isInterface : GoType → Bool
  | .iface _ => true
  | _ => false

/-- A constructor function value: its reflected parameter types
(`ctorType.In`), return types (`ctorType.Out`), and its behaviour when
called.  `build args n` is the value returned by `ctor.Call(args)` when the
process-wide allocation counter stands at `n`; a constructor allocating
fresh state returns `Value.obj n`. -/
structure Factory where
  paramTypes : List GoType
  retTypes : List GoType
  build : List Value → Nat → Value

/-- enums.go: the three lifetimes. -/
inductive LifetimeScope where
  | Transient
  | Singleton
  | Scoped
deriving DecidableEq

/-- gofac.go:10-20 `ServiceDef`.  `inst` is the `instance` field (singleton
cache or pre-registered instance; `Value.invalid` when unset); `onceFired`
is the state of the `once sync.Once` guarding the singleton fill. -/
structure ServiceDef where
  implType : GoType
  scope : LifetimeScope
  inst : Value
  ctor : Option Factory
  isInstance : Bool
  onceFired : Bool

/-- Association-list lookup, standing for a Go `map[reflect.Type]V` read. -/
def alookup {α : Type} : List (GoType × α) → GoType → Option α
  | [], _ => none
  | (k, v) :: rest, t => if t = k then some v else alookup rest t

/-- Association-list lookup, standing for a Go `map[string]V` read. -/
def slookup {α : Type} : List (String × α) → String → Option α
  | [], _ => none
  | (k, v) :: rest, t => if t = k then some v else slookup rest t

/-- The default-services table `map[reflect.Type]*ServiceDef`. -/
abbrev SvcTable := List (GoType × ServiceDef)

/-- gofac.go:22-27 `Container`. -/
structure Container where
  services : SvcTable
  namedServices : List (String × SvcTable)

/-- A scope's `scopedInst map[reflect.Type]reflect.Value` cache
(gofac.go:30-34; the `root` back-pointer is passed explicitly). -/
abbrev Cache := List (GoType × Value)

/-- gofac.go:37-42 `NewContainer`. -/
def NewContainer : Container := { services := [], namedServices := [] }

/-- gofac.go:551-556 `Container.NewScope`: a fresh empty scoped-instance
cache. -/
def NewScope : Cache := []

/-- The singleton-slot fill `serviceDef.once.Do(func() { serviceDef.instance
= instance })` (gofac.go:541-545 and 757-763): sets the instance and burns
the once guard, a no-op if the guard already fired. -/
def fillSlot : SvcTable → GoType → Value → SvcTable
  | [], _, _ => []
  | (k, d) :: rest, t, v =>
    if t = k then
      (k, if d.onceFired then d else { d with inst := v, onceFired := true }) :: rest
    else
      (k, d) :: fillSlot rest t v

/-- `s.scopedInst[svcType] = instance` (gofac.go:606 and 752). -/
def setCache : Cache → GoType → Value → Cache
  | [], t, v => [(t, v)]
  | (k, w) :: rest, t, v =>
    if t = k then (t, v) :: rest else (k, w) :: setCache rest t v

/-- The named-service sweep of the auto-slice rule (gofac.go:476-484 and
686-694): the stored value of every named pre-built binding of the element
type, in table order. -/
def collectNamed (named : List (String × SvcTable)) (e : GoType) : List Value :=
  named.filterMap fun nb =>
    match alookup nb.2 e with
    | some d => if d.isInstance then some d.inst else none
    | none => none

/-- The named-service sweep of the auto-map rule (gofac.go:510-519 and
720-728): `name → stored value` for every named pre-built binding of the
value type. -/
def collectNamedMap (named : List (String × SvcTable)) (v : GoType) : List (String × Value) :=
  named.filterMap fun nb =>
    match alookup nb.2 v with
    | some d => if d.isInstance then some (nb.1, d.inst) else none
    | none => none

/-- errors.go resolution-time errors, plus wrapping.  `depFailed t e` is the
`fmt.Errorf("failed to resolve dependency %s: %w", t, e)` wrapper;
`fuelOut` is the artificial out-of-fuel result (unreachable at sufficient
fuel); `noCtor` models the panic Go would raise calling a zero ctor Value
(possible only on malformed service definitions that no registration
produces); `badSite` models addressing a scope that was never created. -/
inductive RErr where
  | notRegistered (t : GoType)
  | circular (t : GoType)
  | scopedOnRoot
  | createFailed
  | depFailed (t : GoType) (e : RErr)
  | namedMissing (name : String)
  | namedCtorUnsupported (name : String)
  | noCtor
  | fuelOut
  | badSite
deriving DecidableEq

/-- `errors.Is(err, ErrResolveCircularDependency)`: the error is the
circular-dependency error, possibly under dependency wrapping. -/
def RErr.isCircular : RErr → Bool
  | .circular _ => true
  | .depFailed _ e => e.isCircular
  | _ => false

/-- One step of the parameter-assembly loop shared by `Container.resolve`
(gofac.go:440-531) and `Scope.resolve` (gofac.go:650-741), parameterised by
the state type `σ` of the enclosing resolver, accessors for the two
registration tables inside it, and the recursive resolver `res` (which
already closes over the cycle tracker, as the Go code does). -/
def assembleParam {σ : Type} (getSvc : σ → SvcTable)
    (getNamed : σ → List (String × SvcTable))
    (res : σ → GoType → Except RErr Value × σ) (st : σ) (p : GoType) :
    Except RErr Value × σ :=
  match p with
  | .slice e =>
    match alookup (getSvc st) p with
    | some _ =>
      match res st p with
      | (.ok v, st2) => (.ok v, st2)
      | (.error err, st2) => (.error (.depFailed p err), st2)
    | none =>
      match alookup (getSvc st) e with
      | some _ =>
        match res st e with
        | (.ok v, st2) => (.ok (.vlist (v :: collectNamed (getNamed st2) e)), st2)
        | (.error _, st2) => (.ok (.vlist (collectNamed (getNamed st2) e)), st2)
      | none => (.ok (.vlist (collectNamed (getNamed st) e)), st)
  | .smap ve =>
    match alookup (getSvc st) p with
    | some _ =>
      match res st p with
      | (.ok v, st2) => (.ok v, st2)
      | (.error err, st2) => (.error (.depFailed p err), st2)
    | none => (.ok (.vmap (collectNamedMap (getNamed st) ve)), st)
  | _ =>
    match res st p with
    | (.ok v, st2) => (.ok v, st2)
    | (.error err, st2) => (.error (.depFailed p err), st2)

/-- The full parameter-assembly loop: `assembleParam` over the constructor's
parameter types in order, short-circuiting on error. -/
def assembleParams {σ : Type} (getSvc : σ → SvcTable)
    (getNamed : σ → List (String × SvcTable))
    (res : σ → GoType → Except RErr Value × σ) :
    σ → List GoType → Except RErr (List Value) × σ
  | st, [] => (.ok [], st)
  | st, p :: ps =>
    match assembleParam getSvc getNamed res st p with
    | (.error e, st2) => (.error e, st2)
    | (.ok v, st2) =>
      match assembleParams getSvc getNamed res st2 ps with
      | (.error e, st3) => (.error e, st3)
      | (.ok vs, st3) => (.ok (v :: vs), st3)

/-- gofac.go:396-548 `Container.resolve`: look up the service, check the
cycle tracker, reject Scoped on the root, return pre-built instances and
cached singletons, otherwise assemble the constructor arguments (recursing
with the tracker grown by `t`, exactly like `track[svcType] = true` with the
deferred delete), call the constructor, and fill the singleton slot under
the once guard.  State threaded: the container (singleton slot writes) and
the allocation counter. -/
def cresolve : Nat → Container → Nat → GoType → List GoType →
    Except RErr Value × Container × Nat
  | 0, c, ctr, _, _ => (.error .fuelOut, c, ctr)
  | fuel + 1, c, ctr, t, track =>
    match alookup c.services t with
    | none => (.error (.notRegistered t), c, ctr)
    | some d =>
      if t ∈ track then (.error (.circular t), c, ctr)
      else if d.scope = .Scoped then (.error .scopedOnRoot, c, ctr)
      else if d.isInstance then (.ok d.inst, c, ctr)
      else if d.scope = .Singleton ∧ d.inst.IsValid then (.ok d.inst, c, ctr)
      else
        match d.ctor with
        | none => (.error .noCtor, c, ctr)
        | some f =>
          match assembleParams (σ := Container × Nat) (fun st => st.1.services)
              (fun st => st.1.namedServices)
              (fun st u => cresolve fuel st.1 st.2 u (t :: track))
              (c, ctr) f.paramTypes with
          | (.error e, st2) => (.error e, st2)
          | (.ok args, (c2, ctr2)) =>
            let inst := f.build args ctr2
            if f.retTypes.length ≠ 1 then (.error .createFailed, c2, ctr2 + 1)
            else if d.scope = .Singleton then
              (.ok inst, { c2 with services := fillSlot c2.services t inst }, ctr2 + 1)
            else (.ok inst, c2, ctr2 + 1)

/-- gofac.go:574-767 `Scope.resolve`: look up the service in the shared root
store, check the cycle tracker, handle pre-built instances (Singleton shares
the root value, Scoped caches it per scope), return a filled singleton slot
directly, return a valid per-scope cached value for Scoped, otherwise
materialise via the shared parameter loop, write Scoped results to the
per-scope cache and singleton results to the root slot under the once
guard.  State threaded: the container, this scope's cache, and the
allocation counter. -/
def sresolve : Nat → Container → Cache → Nat → GoType → List GoType →
    Except RErr Value × Container × Cache × Nat
  | 0, c, cache, ctr, _, _ => (.error .fuelOut, c, cache, ctr)
  | fuel + 1, c, cache, ctr, t, track =>
    match alookup c.services t with
    | none => (.error (.notRegistered t), c, cache, ctr)
    | some d =>
      if t ∈ track then (.error (.circular t), c, cache, ctr)
      else if d.isInstance ∧ d.scope = .Singleton then (.ok d.inst, c, cache, ctr)
      else if d.isInstance ∧ d.scope = .Scoped then
        match alookup cache t with
        | some v =>
          if v.IsValid then (.ok v, c, cache, ctr)
          else (.ok d.inst, c, setCache cache t d.inst, ctr)
        | none => (.ok d.inst, c, setCache cache t d.inst, ctr)
      else if d.scope = .Singleton ∧ d.inst.IsValid then (.ok d.inst, c, cache, ctr)
      else
        match (if d.scope = .Scoped then
                match alookup cache t with
                | some v => if v.IsValid then some v else none
                | none => none
              else none) with
        | some v => (.ok v, c, cache, ctr)
        | none =>
          match d.ctor with
          | none => (.error .noCtor, c, cache, ctr)
          | some f =>
            match assembleParams (σ := Container × Cache × Nat) (fun st => st.1.services)
                (fun st => st.1.namedServices)
                (fun st u => sresolve fuel st.1 st.2.1 st.2.2 u (t :: track))
                (c, cache, ctr) f.paramTypes with
            | (.error e, st2) => (.error e, st2)
            | (.ok args, (c2, cache2, ctr2)) =>
              let inst := f.build args ctr2
              if f.retTypes.length ≠ 1 then (.error .createFailed, c2, cache2, ctr2 + 1)
              else
                (.ok inst,
                 (if d.scope = .Singleton then
                    { c2 with services := fillSlot c2.services t inst } else c2),
                 (if d.scope = .Scoped then setCache cache2 t inst else cache2),
                 ctr2 + 1)

/-- errors.go registration-time errors.  `noReturn n` carries the offending
return-value count, as the Go message does. -/
inductive RegErr where
  | notFunc
  | noReturn (n : Nat)
  | notConcrete
  | duplicate
  | transientInstance
  | nilInstance
  | emptyName
deriving DecidableEq

/-- Outcome of a registration call: the updated container, a returned error,
or a reflection panic (Go aborts before returning an error value). -/
inductive RegRes where
  | ok (c : Container)
  | fail (e : RegErr)
  | panicked

/-- The `ctor any` argument of `Register`: Go's untyped `nil` interface
(`none`), a function value carrying its reflected signature, or a non-nil
value of some non-function reflect kind (the kind is irrelevant beyond not
being `reflect.Func`, so it is an opaque code). -/
inductive CtorArg where
  | func (f : Factory)
  | nonFunc (kind : Nat)

/-- gofac.go:62-126 `Container.register` with `interfaceType = nil` (the
`Register` entry point): `reflect.ValueOf(nil)` is the zero Value, so
`.Type()` panics before any check runs; a non-function argument yields
`ErrNotFunc`; then the single-concrete-return checks, the duplicate check,
and insertion of a factory-backed `ServiceDef`. -/
def Container.register (c : Container) (ctor : Option CtorArg)
    (scope : LifetimeScope) : RegRes :=
  match ctor with
  | none => .panicked
  | some (.nonFunc _) => .fail .notFunc
  | some (.func f) =>
    match f.retTypes with
    | [implType] =>
      if implType.isInterface then .fail .notConcrete
      else
        match alookup c.services implType with
        | some _ => .fail .duplicate
        | none =>
          .ok { c with services :=
            (implType, { implType := implType, scope := scope, inst := .invalid,
                         ctor := some f, isInstance := false, onceFired := false })
            :: c.services }
    | rts => .fail (.noReturn rts.length)

/-- gofac.go:145-204 `Container.registerInstance` with `interfaceType = nil`
(the `RegisterInstance` entry point): Transient is rejected first, then a
nil instance, then the duplicate check; the stored `ServiceDef` carries the
pre-built value with `isInstance = true`.  The argument is `none` for Go's
`nil` interface, otherwise the value paired with its reflected type. -/
def Container.registerInstance (c : Container) (arg : Option (GoType × Value))
    (scope : LifetimeScope) : RegRes :=
  if scope = .Transient then .fail .transientInstance
  else
    match arg with
    | none => .fail .nilInstance
    | some (ty, v) =>
      match alookup c.services ty with
      | some _ => .fail .duplicate
      | none =>
        .ok { c with services :=
          (ty, { implType := ty, scope := scope, inst := v,
                 ctor := none, isInstance := true, onceFired := false })
          :: c.services }

/-- `namedServices[name]` bucket update: replace the bucket stored under
`name`, or create it (gofac.go:263-265). -/
def setBucket : List (String × SvcTable) → String → SvcTable →
    List (String × SvcTable)
  | [], n, b => [(n, b)]
  | (k, w) :: rest, n, b =>
    if n = k then (n, b) :: rest else (k, w) :: setBucket rest n b

/-- gofac.go:221-280 `Container.registerInstanceNamed` with
`interfaceType = nil` (the `RegisterInstanceNamed` entry point): Transient
rejected, nil instance rejected, empty name rejected, then the duplicate
check within the `named[name]` bucket and insertion. -/
def Container.registerInstanceNamed (c : Container) (name : String)
    (arg : Option (GoType × Value)) (scope : LifetimeScope) : RegRes :=
  if scope = .Transient then .fail .transientInstance
  else
    match arg with
    | none => .fail .nilInstance
    | some (ty, v) =>
      if name = "" then .fail .emptyName
      else
        let bucket := (slookup c.namedServices name).getD []
        match alookup bucket ty with
        | some _ => .fail .duplicate
        | none =>
          .ok { c with namedServices :=
            (setBucket c.namedServices name
              ((ty, { implType := ty, scope := scope, inst := v,
                      ctor := none, isInstance := true, onceFired := false })
               :: bucket)) }

/-- gofac.go:323-350 `Container.ResolveNamed` (type-directed form; the
out-pointer is represented by the requested type): missing name bucket,
missing type in the bucket, pre-built instances returned directly,
factory-backed named services unsupported. -/
def Container.ResolveNamed (c : Container) (name : String) (t : GoType) :
    Except RErr Value :=
  match slookup c.namedServices name with
  | none => .error (.namedMissing name)
  | some bucket =>
    match alookup bucket t with
    | none => .error (.notRegistered t)
    | some d =>
      if d.isInstance then .ok d.inst
      else .error (.namedCtorUnsupported name)

/-- gofac.go:938-942 `Container.Reset`: replaces the default-services table
with a fresh empty map.  (`namedServices` is untouched by the source.) -/
def Container.Reset (c : Container) : Container :=
  { c with services := [] }

/-- A process state: the container, the caches of the scopes created so far
(scope `i` is the `i`-th `NewScope` result), and the allocation counter. -/
structure World where
  c : Container
  scopes : List Cache
  ctr : Nat

/-- Where a resolve is performed: on the root container or on scope `i`. -/
inductive Site where
  | root
  | scope (i : Nat)

/-- Perform one `Resolve` (gofac.go:308-320 via `Container.resolve`, or
gofac.go:559-571 via `Scope.resolve`) at a site, with a fresh cycle
tracker, threading the world state. -/
def doResolve (fuel : Nat) (w : World) (s : Site) (t : GoType) :
    Except RErr Value × World :=
  match s with
  | .root =>
    let r := cresolve fuel w.c w.ctr t []
    (r.1, { w with c := r.2.1, ctr := r.2.2 })
  | .scope i =>
    match w.scopes.get? i with
    | some cache =>
      let r := sresolve fuel w.c cache w.ctr t []
      (r.1, { c := r.2.1, scopes := w.scopes.set i r.2.2.1, ctr := r.2.2.2 })
    | none => (.error .badSite, w)

/-- Operations that may happen between two resolves of interest: creating a
scope, or resolving any type at any site (with any fuel). -/
inductive Op where
  | newScope
  | res (fuel : Nat) (s : Site) (t : GoType)

/-- Execute one operation, discarding its result. -/
def stepW (w : World) : Op → World
  | .newScope => { w with scopes := w.scopes ++ [NewScope] }
  | .res fuel s t => (doResolve fuel w s t).2

/-- Execute a sequence of operations. -/
def runW (w : World) (ops : List Op) : World := ops.foldl stepW w

/-- Registration operations on a container (the `interfaceType = nil` entry
points embedded above). -/
inductive RegOp where
  | reg (ctor : Option CtorArg) (sc : LifetimeScope)
  | regInst (arg : Option (GoType × Value)) (sc : LifetimeScope)
  | regInstNamed (name : String) (arg : Option (GoType × Value)) (sc : LifetimeScope)

/-- Execute one registration, keeping the container unchanged when the
registration fails or panics. -/
def stepReg (c : Container) : RegOp → Container
  | .reg ctor sc => match c.register ctor sc with | .ok c2 => c2 | _ => c
  | .regInst arg sc => match c.registerInstance arg sc with | .ok c2 => c2 | _ => c
  | .regInstNamed n arg sc =>
    match c.registerInstanceNamed n arg sc with | .ok c2 => c2 | _ => c

/-- Execute a sequence of registrations. -/
def runReg (c : Container) (ops : List RegOp) : Container := ops.foldl stepReg c

/-! ### Basic lemmas about the table operations -/

theorem alookup_cons {α : Type} (k : GoType) (v : α) (rest : List (GoType × α))
    (t : GoType) :
    alookup ((k, v) :: rest) t = if t = k then some v else alookup rest t := rfl

theorem alookup_fillSlot_ne (s : SvcTable) (t u : GoType) (v : Value)
    (h : u ≠ t) : alookup (fillSlot s t v) u = alookup s u := by
  induction s with
  | nil => rfl
  | cons kd rest ih =>
    obtain ⟨k, d⟩ := kd
    by_cases hk : t = k
    · subst hk
      simp [fillSlot, alookup_cons, h]
    · simp only [fillSlot, if_neg hk, alookup_cons]
      by_cases hu : u = k <;> simp [hu, ih]

theorem alookup_fillSlot_self (s : SvcTable) (t : GoType) (v : Value) (d : ServiceDef)
    (h : alookup s t = some d) :
    alookup (fillSlot s t v) t =
      some (if d.onceFired then d else { d with inst := v, onceFired := true }) := by
  induction s with
  | nil => simp [alookup] at h
  | cons kd rest ih =>
    obtain ⟨k, d0⟩ := kd
    by_cases hk : t = k
    · subst hk
      simp only [alookup_cons, if_pos rfl] at h
      cases h
      simp [fillSlot, alookup_cons]
    · simp only [alookup_cons, if_neg hk] at h
      simp only [fillSlot, if_neg hk, alookup_cons, if_neg hk]
      exact ih h

theorem alookup_fillSlot_none (s : SvcTable) (t u : GoType) (v : Value)
    (h : alookup s t = none) : alookup (fillSlot s t v) u = alookup s u := by
  induction s with
  | nil => rfl
  | cons kd rest ih =>
    obtain ⟨k, d0⟩ := kd
    by_cases hk : t = k
    · subst hk; simp [alookup_cons] at h
    · simp only [alookup_cons, if_neg hk] at h
      simp only [fillSlot, if_neg hk, alookup_cons]
      by_cases hu : u = k <;> simp [hu, ih h]

theorem alookup_setCache_self (c : Cache) (t : GoType) (v : Value) :
    alookup (setCache c t v) t = some v := by
  induction c with
  | nil => simp [setCache, alookup_cons]
  | cons kw rest ih =>
    obtain ⟨k, w⟩ := kw
    by_cases hk : t = k
    · subst hk; simp [setCache, alookup_cons]
    · simp [setCache, hk, alookup_cons, ih]

theorem alookup_setCache_ne (c : Cache) (t u : GoType) (v : Value) (h : u ≠ t) :
    alookup (setCache c t v) u = alookup c u := by
  induction c with
  | nil => simp [setCache, alookup_cons, h]
  | cons kw rest ih =>
    obtain ⟨k, w⟩ := kw
    by_cases hk : t = k
    · subst hk; simp [setCache, alookup_cons, h]
    · simp only [setCache, if_neg hk, alookup_cons]
      by_cases hu : u = k <;> simp [hu, ih]

/-! ### The state-evolution relation

A resolve mutates the registration store only through the once-guarded
singleton fill: every entry either stays as it is, or (for a not-yet-fired
factory-backed binding) gets its instance slot filled and its guard burnt.
Everything else about the store — which types are registered, their
lifetimes, factories, and the instance-vs-factory discrimination — is
immutable during resolution. -/

def DefEvolves (d d2 : ServiceDef) : Prop :=
  d2 = d ∨ (d.onceFired = false ∧ d.isInstance = false ∧
    ∃ v, d2 = { d with inst := v, onceFired := true })

def Evolves (s s2 : SvcTable) : Prop :=
  ∀ t, (∀ d, alookup s t = some d → ∃ d2, alookup s2 t = some d2 ∧ DefEvolves d d2) ∧
    (alookup s t = none → alookup s2 t = none)

theorem DefEvolves.drefl (d : ServiceDef) : DefEvolves d d := Or.inl rfl

theorem DefEvolves.dtrans {a b c : ServiceDef} (h1 : DefEvolves a b)
    (h2 : DefEvolves b c) : DefEvolves a c := by
  rcases h1 with rfl | ⟨hf, hi, v, rfl⟩
  · exact h2
  · rcases h2 with rfl | ⟨hf2, _, w, rfl⟩
    · exact Or.inr ⟨hf, hi, v, rfl⟩
    · simp at hf2

theorem Evolves.erefl (s : SvcTable) : Evolves s s := by
  intro t
  exact ⟨fun d h => ⟨d, h, DefEvolves.drefl d⟩, fun h => h⟩

theorem Evolves.etrans {a b c : SvcTable} (h1 : Evolves a b) (h2 : Evolves b c) :
    Evolves a c := by
  intro t
  constructor
  · intro d hd
    obtain ⟨d2, hd2, he⟩ := (h1 t).1 d hd
    obtain ⟨d3, hd3, he2⟩ := (h2 t).1 d2 hd2
    exact ⟨d3, hd3, he.dtrans he2⟩
  · intro h
    exact (h2 t).2 ((h1 t).2 h)

theorem Evolves.fillSlot {s : SvcTable} {t : GoType} {d : ServiceDef} (v : Value)
    (h : alookup s t = some d) (hi : d.isInstance = false) :
    Evolves s (fillSlot s t v) := by
  intro u
  constructor
  · intro du hdu
    by_cases hu : u = t
    · subst hu
      rw [h] at hdu
      injection hdu with hdu2
      subst hdu2
      rw [alookup_fillSlot_self s u v d h]
      by_cases hf : d.onceFired
      · exact ⟨d, by simp [hf], DefEvolves.drefl d⟩
      · exact ⟨_, by simp [hf], Or.inr ⟨by simpa using hf, hi, v, rfl⟩⟩
    · rw [alookup_fillSlot_ne s t u v hu]
      exact ⟨du, hdu, DefEvolves.drefl du⟩
  · intro hn
    by_cases hu : u = t
    · subst hu; rw [h] at hn; cases hn
    · rw [alookup_fillSlot_ne s t u v hu]; exact hn

/-! ### Generic preservation through the parameter-assembly loop

Any reflexive-transitive state property respected by the recursive resolver
is respected by the whole parameter loop: the loop only ever keeps the state
or passes it through recursive resolves (including the swallowed
default-element resolve of the auto-slice rule, whose state mutations
persist even though its error is discarded). -/

theorem assembleParam_pres {σ : Type} (getSvc : σ → SvcTable)
    (getNamed : σ → List (String × SvcTable))
    (res : σ → GoType → Except RErr Value × σ) (P : σ → σ → Prop)
    (hrefl : ∀ s, P s s)
    (hres : ∀ st u, P st (res st u).2) :
    ∀ st p, P st (assembleParam getSvc getNamed res st p).2 := by
  intro st p
  cases p with
  | base n =>
    simp only [assembleParam]
    rcases h : res st (.base n) with ⟨r, st2⟩
    have hp := hres st (.base n)
    rw [h] at hp
    cases r <;> exact hp
  | iface n =>
    simp only [assembleParam]
    rcases h : res st (.iface n) with ⟨r, st2⟩
    have hp := hres st (.iface n)
    rw [h] at hp
    cases r <;> exact hp
  | slice e =>
    simp only [assembleParam]
    cases alookup (getSvc st) (.slice e) with
    | some d =>
      rcases h : res st (.slice e) with ⟨r, st2⟩
      have hp := hres st (.slice e)
      rw [h] at hp
      cases r <;> exact hp
    | none =>
      cases alookup (getSvc st) e with
      | some d =>
        rcases h : res st e with ⟨r, st2⟩
        have hp := hres st e
        rw [h] at hp
        cases r <;> exact hp
      | none => exact hrefl st
  | smap ve =>
    simp only [assembleParam]
    cases alookup (getSvc st) (.smap ve) with
    | some d =>
      rcases h : res st (.smap ve) with ⟨r, st2⟩
      have hp := hres st (.smap ve)
      rw [h] at hp
      cases r <;> exact hp
    | none => exact hrefl st

theorem assembleParams_pres {σ : Type} (getSvc : σ → SvcTable)
    (getNamed : σ → List (String × SvcTable))
    (res : σ → GoType → Except RErr Value × σ) (P : σ → σ → Prop)
    (hrefl : ∀ s, P s s)
    (htrans : ∀ a b c, P a b → P b c → P a c)
    (hres : ∀ st u, P st (res st u).2) :
    ∀ st ps, P st (assembleParams getSvc getNamed res st ps).2 := by
  intro st ps
  induction ps generalizing st with
  | nil => exact hrefl st
  | cons p rest ih =>
    simp only [assembleParams]
    rcases h1 : assembleParam getSvc getNamed res st p with ⟨r1, st2⟩
    have hp1 : P st st2 := by
      have := assembleParam_pres getSvc getNamed res P hrefl hres st p
      rwa [h1] at this
    cases r1 with
    | error e => exact hp1
    | ok v =>
      rcases h2 : assembleParams getSvc getNamed res st2 rest with ⟨r2, st3⟩
      have hp2 : P st2 st3 := by
        have := ih st2
        rwa [h2] at this
      dsimp only
      rw [h2]
      cases r2 with
      | error e => exact htrans _ _ _ hp1 hp2
      | ok vs => exact htrans _ _ _ hp1 hp2

/-! ### What a root resolve does to the state

`Container.resolve` leaves the named table untouched, never decreases the
allocation counter, evolves the default table only through once-guarded
singleton fills, and never touches the entry of a type currently on the
cycle tracker. -/

def RootPres (track : List GoType) (st st2 : Container × Nat) : Prop :=
  Evolves st.1.services st2.1.services ∧
  st2.1.namedServices = st.1.namedServices ∧
  (∀ u ∈ track, alookup st2.1.services u = alookup st.1.services u) ∧
  st.2 ≤ st2.2

theorem RootPres.rrefl (track : List GoType) (st : Container × Nat) :
    RootPres track st st :=
  ⟨Evolves.erefl _, rfl, fun _ _ => rfl, Nat.le_refl _⟩

theorem RootPres.rtrans {track : List GoType} {a b c : Container × Nat}
    (h1 : RootPres track a b) (h2 : RootPres track b c) : RootPres track a c :=
  ⟨h1.1.etrans h2.1, h2.2.1.trans h1.2.1,
   fun u hu => (h2.2.2.1 u hu).trans (h1.2.2.1 u hu),
   Nat.le_trans h1.2.2.2 h2.2.2.2⟩

theorem RootPres.rmono {t : GoType} {track : List GoType} {a b : Container × Nat}
    (h : RootPres (t :: track) a b) : RootPres track a b :=
  ⟨h.1, h.2.1, fun u hu => h.2.2.1 u (List.mem_cons_of_mem _ hu), h.2.2.2⟩

theorem cresolve_pres (fuel : Nat) :
    ∀ c ctr t track, RootPres track (c, ctr) (cresolve fuel c ctr t track).2 := by
  induction fuel with
  | zero => intro c ctr t track; exact RootPres.rrefl track (c, ctr)
  | succ fuel ih =>
    intro c ctr t track
    rw [cresolve]
    cases hl : alookup c.services t with
    | none => exact RootPres.rrefl _ _
    | some d =>
      dsimp only
      by_cases hm : t ∈ track
      · rw [if_pos hm]; exact RootPres.rrefl _ _
      · rw [if_neg hm]
        by_cases hsc : d.scope = .Scoped
        · rw [if_pos hsc]; exact RootPres.rrefl _ _
        · rw [if_neg hsc]
          by_cases hins : d.isInstance = true
          · rw [if_pos hins]; exact RootPres.rrefl _ _
          · rw [if_neg hins]
            by_cases hsg : d.scope = .Singleton ∧ d.inst.IsValid = true
            · rw [if_pos hsg]; exact RootPres.rrefl _ _
            · rw [if_neg hsg]
              cases hct : d.ctor with
              | none => exact RootPres.rrefl _ _
              | some f =>
                have hP := assembleParams_pres
                  (σ := Container × Nat) (fun st => st.1.services)
                  (fun st => st.1.namedServices)
                  (fun st u => cresolve fuel st.1 st.2 u (t :: track))
                  (RootPres (t :: track)) (RootPres.rrefl _)
                  (fun _ _ _ h1 h2 => RootPres.rtrans h1 h2)
                  (fun st u => ih st.1 st.2 u (t :: track)) (c, ctr) f.paramTypes
                rcases hA : assembleParams (σ := Container × Nat)
                    (fun st => st.1.services) (fun st => st.1.namedServices)
                    (fun st u => cresolve fuel st.1 st.2 u (t :: track))
                    (c, ctr) f.paramTypes with ⟨r, c2, ctr2⟩
                rw [hA] at hP
                dsimp only
                rw [hA]
                cases r with
                | error e => exact hP.rmono
                | ok args =>
                  dsimp only
                  by_cases hrt : f.retTypes.length ≠ 1
                  · rw [if_pos hrt]
                    exact ⟨hP.rmono.1, hP.rmono.2.1, hP.rmono.2.2.1,
                      Nat.le_trans hP.rmono.2.2.2 (Nat.le_succ _)⟩
                  · rw [if_neg hrt]
                    by_cases hsg2 : d.scope = .Singleton
                    · rw [if_pos hsg2]
                      have hlt : alookup c2.services t = some d :=
                        (hP.2.2.1 t (List.mem_cons_self t track)).trans hl
                      have hfe : Evolves c2.services
                          (fillSlot c2.services t (f.build args ctr2)) :=
                        Evolves.fillSlot _ hlt (by simpa using hins)
                      refine ⟨hP.rmono.1.etrans hfe, hP.rmono.2.1, ?_,
                        Nat.le_trans hP.rmono.2.2.2 (Nat.le_succ _)⟩
                      intro u hu
                      have hut : u ≠ t := fun he => hm (he ▸ hu)
                      rw [alookup_fillSlot_ne _ _ _ _ hut]
                      exact hP.rmono.2.2.1 u hu
                    · rw [if_neg hsg2]
                      exact ⟨hP.rmono.1, hP.rmono.2.1, hP.rmono.2.2.1,
                        Nat.le_trans hP.rmono.2.2.2 (Nat.le_succ _)⟩

/-! ### What a scope resolve does to the state

`Scope.resolve` additionally owns a per-scope cache: valid cached values are
never overwritten, and the cache entry of a type currently on the cycle
tracker is never touched. -/

def ScopePres (track : List GoType) (st st2 : Container × Cache × Nat) : Prop :=
  Evolves st.1.services st2.1.services ∧
  st2.1.namedServices = st.1.namedServices ∧
  (∀ u ∈ track, alookup st2.1.services u = alookup st.1.services u) ∧
  (∀ u v, alookup st.2.1 u = some v → v.IsValid = true → alookup st2.2.1 u = some v) ∧
  (∀ u ∈ track, alookup st2.2.1 u = alookup st.2.1 u) ∧
  st.2.2 ≤ st2.2.2

theorem ScopePres.srefl (track : List GoType) (st : Container × Cache × Nat) :
    ScopePres track st st :=
  ⟨Evolves.erefl _, rfl, fun _ _ => rfl, fun _ _ h _ => h, fun _ _ => rfl, Nat.le_refl _⟩

theorem ScopePres.strans {track : List GoType} {a b c : Container × Cache × Nat}
    (h1 : ScopePres track a b) (h2 : ScopePres track b c) : ScopePres track a c :=
  ⟨h1.1.etrans h2.1, h2.2.1.trans h1.2.1,
   fun u hu => (h2.2.2.1 u hu).trans (h1.2.2.1 u hu),
   fun u v hv hval => h2.2.2.2.1 u v (h1.2.2.2.1 u v hv hval) hval,
   fun u hu => (h2.2.2.2.2.1 u hu).trans (h1.2.2.2.2.1 u hu),
   Nat.le_trans h1.2.2.2.2.2 h2.2.2.2.2.2⟩

theorem ScopePres.smono {t : GoType} {track : List GoType}
    {a b : Container × Cache × Nat} (h : ScopePres (t :: track) a b) :
    ScopePres track a b :=
  ⟨h.1, h.2.1, fun u hu => h.2.2.1 u (List.mem_cons_of_mem _ hu), h.2.2.2.1,
   fun u hu => h.2.2.2.2.1 u (List.mem_cons_of_mem _ hu), h.2.2.2.2.2⟩

theorem sresolve_pres (fuel : Nat) :
    ∀ c cache ctr t track,
      ScopePres track (c, cache, ctr) (sresolve fuel c cache ctr t track).2 := by
  induction fuel with
  | zero => intro c cache ctr t track; exact ScopePres.srefl track (c, cache, ctr)
  | succ fuel ih =>
    intro c cache ctr t track
    rw [sresolve]
    cases hl : alookup c.services t with
    | none => exact ScopePres.srefl _ _
    | some d =>
      dsimp only
      by_cases hm : t ∈ track
      · rw [if_pos hm]; exact ScopePres.srefl _ _
      · rw [if_neg hm]
        by_cases hi1 : d.isInstance = true ∧ d.scope = .Singleton
        · rw [if_pos hi1]; exact ScopePres.srefl _ _
        · rw [if_neg hi1]
          by_cases hi2 : d.isInstance = true ∧ d.scope = .Scoped
          · rw [if_pos hi2]
            have hset : ∀ (hno : alookup cache t = none ∨
                ∃ v0, alookup cache t = some v0 ∧ v0.IsValid = false),
                ScopePres track (c, cache, ctr) (c, setCache cache t d.inst, ctr) := by
              intro hno
              refine ⟨Evolves.erefl _, rfl, fun _ _ => rfl, ?_, ?_, Nat.le_refl _⟩
              · intro u v hv hval
                by_cases hut : u = t
                · subst hut
                  rcases hno with hno | ⟨v0, hv0, hbad⟩
                  · rw [hno] at hv; cases hv
                  · rw [hv0] at hv
                    injection hv with hv
                    subst hv
                    rw [hbad] at hval; cases hval
                · rw [alookup_setCache_ne _ _ _ _ hut]; exact hv
              · intro u hu
                have hut : u ≠ t := fun he => hm (he ▸ hu)
                rw [alookup_setCache_ne _ _ _ _ hut]
            cases hc : alookup cache t with
            | some v =>
              dsimp only
              by_cases hval : v.IsValid = true
              · rw [if_pos hval]; exact ScopePres.srefl _ _
              · rw [if_neg hval]
                exact hset (Or.inr ⟨v, hc, by simpa using hval⟩)
            | none => exact hset (Or.inl hc)
          · rw [if_neg hi2]
            by_cases hsg : d.scope = .Singleton ∧ d.inst.IsValid = true
            · rw [if_pos hsg]; exact ScopePres.srefl _ _
            · rw [if_neg hsg]
              cases hh : (if d.scope = .Scoped then
                  match alookup cache t with
                  | some v => if v.IsValid then some v else none
                  | none => none
                else none) with
              | some v => exact ScopePres.srefl _ _
              | none =>
                dsimp only
                cases hct : d.ctor with
                | none => exact ScopePres.srefl _ _
                | some f =>
                  have hP := assembleParams_pres
                    (σ := Container × Cache × Nat) (fun st => st.1.services)
                    (fun st => st.1.namedServices)
                    (fun st u => sresolve fuel st.1 st.2.1 st.2.2 u (t :: track))
                    (ScopePres (t :: track)) (ScopePres.srefl _)
                    (fun _ _ _ h1 h2 => ScopePres.strans h1 h2)
                    (fun st u => ih st.1 st.2.1 st.2.2 u (t :: track)) (c, cache, ctr)
                    f.paramTypes
                  rcases hA : assembleParams (σ := Container × Cache × Nat)
                      (fun st => st.1.services) (fun st => st.1.namedServices)
                      (fun st u => sresolve fuel st.1 st.2.1 st.2.2 u (t :: track))
                      (c, cache, ctr) f.paramTypes with ⟨r, c2, cache2, ctr2⟩
                  rw [hA] at hP
                  dsimp only
                  rw [hA]
                  cases r with
                  | error e => exact hP.smono
                  | ok args =>
                    dsimp only
                    by_cases hrt : f.retTypes.length ≠ 1
                    · rw [if_pos hrt]
                      exact ⟨hP.smono.1, hP.smono.2.1, hP.smono.2.2.1, hP.smono.2.2.2.1,
                        hP.smono.2.2.2.2.1,
                        Nat.le_trans hP.smono.2.2.2.2.2 (Nat.le_succ _)⟩
                    · rw [if_neg hrt]
                      have hcacheT : alookup cache2 t = alookup cache t :=
                        hP.2.2.2.2.1 t (List.mem_cons_self t track)
                      have hsvcT : alookup c2.services t = some d :=
                        (hP.2.2.1 t (List.mem_cons_self t track)).trans hl
                      have hcachePiece : ∀ u v, alookup cache u = some v →
                          v.IsValid = true →
                          alookup (if d.scope = .Scoped then
                            setCache cache2 t (f.build args ctr2) else cache2) u = some v := by
                        intro u v hv hval
                        by_cases hscd : d.scope = .Scoped
                        · rw [if_pos hscd]
                          by_cases hut : u = t
                          · subst hut
                            rw [if_pos hscd, hv] at hh
                            simp [hval] at hh
                          · rw [alookup_setCache_ne _ _ _ _ hut]
                            exact hP.2.2.2.1 u v hv hval
                        · rw [if_neg hscd]
                          exact hP.2.2.2.1 u v hv hval
                      have hcacheTrack : ∀ u ∈ track,
                          alookup (if d.scope = .Scoped then
                            setCache cache2 t (f.build args ctr2) else cache2) u =
                          alookup cache u := by
                        intro u hu
                        have hut : u ≠ t := fun he => hm (he ▸ hu)
                        by_cases hscd : d.scope = .Scoped
                        · rw [if_pos hscd, alookup_setCache_ne _ _ _ _ hut]
                          exact hP.2.2.2.2.1 u (List.mem_cons_of_mem _ hu)
                        · rw [if_neg hscd]
                          exact hP.2.2.2.2.1 u (List.mem_cons_of_mem _ hu)
                      by_cases hsg2 : d.scope = .Singleton
                      · rw [if_pos hsg2]
                        have hins : d.isInstance = false := by
                          rcases Bool.eq_false_or_eq_true d.isInstance with h | h
                          · exact absurd ⟨h, hsg2⟩ hi1
                          · exact h
                        have hfe : Evolves c2.services
                            (fillSlot c2.services t (f.build args ctr2)) :=
                          Evolves.fillSlot _ hsvcT hins
                        refine ⟨hP.smono.1.etrans hfe, hP.smono.2.1, ?_, hcachePiece,
                          hcacheTrack, Nat.le_trans hP.smono.2.2.2.2.2 (Nat.le_succ _)⟩
                        intro u hu
                        have hut : u ≠ t := fun he => hm (he ▸ hu)
                        rw [alookup_fillSlot_ne _ _ _ _ hut]
                        exact hP.smono.2.2.1 u hu
                      · rw [if_neg hsg2]
                        exact ⟨hP.smono.1, hP.smono.2.1, hP.smono.2.2.1, hcachePiece,
                          hcacheTrack, Nat.le_trans hP.smono.2.2.2.2.2 (Nat.le_succ _)⟩

/-! ### Singleton identity

A Singleton binding is *committed* to a value once its instance slot holds a
valid value together with its discriminator (pre-built, or once-guard
fired).  Committed bindings survive any state evolution, every resolver
returns the committed value, and every successful resolve commits the
binding to the returned value. -/

def SingletonFixed (svc : SvcTable) (T : GoType) (v : Value) : Prop :=
  ∃ d, alookup svc T = some d ∧ d.scope = .Singleton ∧ d.inst = v ∧
    v.IsValid = true ∧ (d.isInstance = true ∨ d.onceFired = true)

theorem SingletonFixed.stable {s s2 : SvcTable} {T : GoType} {v : Value}
    (he : Evolves s s2) (h : SingletonFixed s T v) : SingletonFixed s2 T v := by
  obtain ⟨d, hl, hsg, hinst, hval, hdisc⟩ := h
  obtain ⟨d2, hl2, hde⟩ := (he T).1 d hl
  rcases hde with heq | ⟨hf, hi, w, heq⟩
  · exact ⟨d2, hl2, by rw [heq]; exact hsg, by rw [heq]; exact hinst, hval,
      by rw [heq]; exact hdisc⟩
  · rcases hdisc with hdisc | hdisc
    · rw [hi] at hdisc; cases hdisc
    · rw [hf] at hdisc; cases hdisc

/-- What registration guarantees about a Singleton binding: a pre-built one
carries a valid value; a factory-backed one has an empty slot exactly when
its once guard is unfired, and a constructor whose calls always return valid
values (Go `Call` results are always valid `reflect.Value`s). -/
def GoodSing (d : ServiceDef) : Prop :=
  d.scope = .Singleton ∧
  (d.isInstance = true → d.inst.IsValid = true) ∧
  (d.isInstance = false →
    (d.inst.IsValid = false ↔ d.onceFired = false) ∧
    ∃ f, d.ctor = some f ∧ ∀ args n, (f.build args n).IsValid = true)

theorem cresolve_fixed (fuel : Nat) (c : Container) (ctr : Nat) (T : GoType)
    (track : List GoType) (v : Value) (hfix : SingletonFixed c.services T v)
    (hnt : T ∉ track) :
    cresolve (fuel + 1) c ctr T track = (.ok v, c, ctr) := by
  obtain ⟨d, hl, hsg, hinst, hval, _⟩ := hfix
  rw [cresolve, hl]
  dsimp only
  rw [if_neg hnt]
  have hnsc : ¬(d.scope = .Scoped) := by rw [hsg]; simp
  rw [if_neg hnsc]
  by_cases hins : d.isInstance = true
  · rw [if_pos hins, hinst]
  · rw [if_neg hins, if_pos ⟨hsg, by rw [hinst]; exact hval⟩, hinst]

theorem sresolve_fixed (fuel : Nat) (c : Container) (cache : Cache) (ctr : Nat)
    (T : GoType) (track : List GoType) (v : Value)
    (hfix : SingletonFixed c.services T v) (hnt : T ∉ track) :
    sresolve (fuel + 1) c cache ctr T track = (.ok v, c, cache, ctr) := by
  obtain ⟨d, hl, hsg, hinst, hval, _⟩ := hfix
  rw [sresolve, hl]
  dsimp only
  rw [if_neg hnt]
  by_cases hins : d.isInstance = true
  · rw [if_pos ⟨hins, hsg⟩, hinst]
  · rw [if_neg (fun h => hins h.1)]
    rw [if_neg (fun (h : d.isInstance = true ∧ _) => hins h.1)]
    rw [if_pos ⟨hsg, by rw [hinst]; exact hval⟩, hinst]

theorem cresolve_success_fixed (fuel : Nat) (c c2 : Container) (ctr ctr2 : Nat)
    (T : GoType) (track : List GoType) (v : Value) (d : ServiceDef)
    (hl : alookup c.services T = some d) (hg : GoodSing d)
    (hres : cresolve fuel c ctr T track = (.ok v, c2, ctr2)) :
    SingletonFixed c2.services T v := by
  obtain ⟨hsg, hgi, hgf⟩ := hg
  cases fuel with
  | zero => rw [cresolve] at hres; cases hres
  | succ fuel =>
    rw [cresolve, hl] at hres
    dsimp only at hres
    by_cases hm : T ∈ track
    · rw [if_pos hm] at hres; cases hres
    · rw [if_neg hm] at hres
      have hnsc : ¬(d.scope = .Scoped) := by rw [hsg]; simp
      rw [if_neg hnsc] at hres
      by_cases hins : d.isInstance = true
      · rw [if_pos hins] at hres
        injection hres with h1 h2
        injection h1 with h1
        injection h2 with h2 h3
        subst h2
        exact ⟨d, hl, hsg, h1, h1 ▸ hgi hins, Or.inl hins⟩
      · rw [if_neg hins] at hres
        have hins2 : d.isInstance = false := by
          rcases Bool.eq_false_or_eq_true d.isInstance with h | h
          · exact absurd h hins
          · exact h
        obtain ⟨hiff, f, hct, hbuild⟩ := hgf hins2
        by_cases hsv : d.scope = .Singleton ∧ d.inst.IsValid = true
        · rw [if_pos hsv] at hres
          injection hres with h1 h2
          injection h1 with h1
          injection h2 with h2 h3
          subst h2
          have hfired : d.onceFired = true := by
            rcases Bool.eq_false_or_eq_true d.onceFired with h | h
            · exact h
            · rw [hiff.mpr h] at hsv
              exact absurd hsv (by simp)
          exact ⟨d, hl, hsg, h1, h1 ▸ hsv.2, Or.inr hfired⟩
        · rw [if_neg hsv] at hres
          rw [hct] at hres
          dsimp only at hres
          rcases hA : assembleParams (σ := Container × Nat)
              (fun st => st.1.services) (fun st => st.1.namedServices)
              (fun st u => cresolve fuel st.1 st.2 u (T :: track))
              (c, ctr) f.paramTypes with ⟨r, cA, ctrA⟩
          rw [hA] at hres
          cases r with
          | error e => cases hres
          | ok args =>
            dsimp only at hres
            by_cases hrt : f.retTypes.length ≠ 1
            · rw [if_pos hrt] at hres; cases hres
            · rw [if_neg hrt, if_pos hsg] at hres
              injection hres with h1 h2
              injection h1 with h1
              injection h2 with h2 h3
              have hP := assembleParams_pres
                (σ := Container × Nat) (fun st => st.1.services)
                (fun st => st.1.namedServices)
                (fun st u => cresolve fuel st.1 st.2 u (T :: track))
                (RootPres (T :: track)) (RootPres.rrefl _)
                (fun _ _ _ ha hb => RootPres.rtrans ha hb)
                (fun st u => cresolve_pres fuel st.1 st.2 u (T :: track))
                (c, ctr) f.paramTypes
              rw [hA] at hP
              have hlA : alookup cA.services T = some d :=
                (hP.2.2.1 T (List.mem_cons_self T track)).trans hl
              have hinv : d.inst.IsValid = false := by
                rcases Bool.eq_false_or_eq_true d.inst.IsValid with h | h
                · exact absurd ⟨hsg, h⟩ hsv
                · exact h
              have hfired : d.onceFired = false := hiff.mp hinv
              have hfill := alookup_fillSlot_self cA.services T (f.build args ctrA) d hlA
              rw [if_neg (by rw [hfired]; simp)] at hfill
              refine ⟨{ d with inst := f.build args ctrA, onceFired := true }, ?_, hsg, h1,
                h1 ▸ hbuild args ctrA, Or.inr rfl⟩
              rw [← h2]
              exact hfill

theorem sresolve_success_fixed (fuel : Nat) (c c2 : Container) (cache cache2 : Cache)
    (ctr ctr2 : Nat) (T : GoType) (track : List GoType) (v : Value) (d : ServiceDef)
    (hl : alookup c.services T = some d) (hg : GoodSing d)
    (hres : sresolve fuel c cache ctr T track = (.ok v, c2, cache2, ctr2)) :
    SingletonFixed c2.services T v := by
  obtain ⟨hsg, hgi, hgf⟩ := hg
  cases fuel with
  | zero => rw [sresolve] at hres; cases hres
  | succ fuel =>
    rw [sresolve, hl] at hres
    dsimp only at hres
    by_cases hm : T ∈ track
    · rw [if_pos hm] at hres; cases hres
    · rw [if_neg hm] at hres
      have hnsc : ¬(d.scope = .Scoped) := by rw [hsg]; simp
      by_cases hins : d.isInstance = true
      · rw [if_pos ⟨hins, hsg⟩] at hres
        injection hres with h1 h2
        injection h1 with h1
        injection h2 with h2 h3
        subst h2
        exact ⟨d, hl, hsg, h1, h1 ▸ hgi hins, Or.inl hins⟩
      · rw [if_neg (fun h => hins h.1)] at hres
        rw [if_neg (fun (h : d.isInstance = true ∧ _) => hins h.1)] at hres
        have hins2 : d.isInstance = false := by
          rcases Bool.eq_false_or_eq_true d.isInstance with h | h
          · exact absurd h hins
          · exact h
        obtain ⟨hiff, f, hct, hbuild⟩ := hgf hins2
        by_cases hsv : d.scope = .Singleton ∧ d.inst.IsValid = true
        · rw [if_pos hsv] at hres
          injection hres with h1 h2
          injection h1 with h1
          injection h2 with h2 h3
          subst h2
          have hfired : d.onceFired = true := by
            rcases Bool.eq_false_or_eq_true d.onceFired with h | h
            · exact h
            · rw [hiff.mpr h] at hsv
              exact absurd hsv (by simp)
          exact ⟨d, hl, hsg, h1, h1 ▸ hsv.2, Or.inr hfired⟩
        · rw [if_neg hsv] at hres
          rw [if_neg hnsc] at hres
          dsimp only at hres
          rw [hct] at hres
          dsimp only at hres
          rcases hA : assembleParams (σ := Container × Cache × Nat)
              (fun st => st.1.services) (fun st => st.1.namedServices)
              (fun st u => sresolve fuel st.1 st.2.1 st.2.2 u (T :: track))
              (c, cache, ctr) f.paramTypes with ⟨r, cA, cacheA, ctrA⟩
          rw [hA] at hres
          cases r with
          | error e => cases hres
          | ok args =>
            dsimp only at hres
            by_cases hrt : f.retTypes.length ≠ 1
            · rw [if_pos hrt] at hres; cases hres
            · rw [if_neg hrt] at hres
              rw [if_neg hnsc, if_pos hsg] at hres
              injection hres with h1 h2
              injection h1 with h1
              injection h2 with h2 h3
              have hP := assembleParams_pres
                (σ := Container × Cache × Nat) (fun st => st.1.services)
                (fun st => st.1.namedServices)
                (fun st u => sresolve fuel st.1 st.2.1 st.2.2 u (T :: track))
                (ScopePres (T :: track)) (ScopePres.srefl _)
                (fun _ _ _ ha hb => ScopePres.strans ha hb)
                (fun st u => sresolve_pres fuel st.1 st.2.1 st.2.2 u (T :: track))
                (c, cache, ctr) f.paramTypes
              rw [hA] at hP
              have hlA : alookup cA.services T = some d :=
                (hP.2.2.1 T (List.mem_cons_self T track)).trans hl
              have hinv : d.inst.IsValid = false := by
                rcases Bool.eq_false_or_eq_true d.inst.IsValid with h | h
                · exact absurd ⟨hsg, h⟩ hsv
                · exact h
              have hfired : d.onceFired = false := hiff.mp hinv
              have hfill := alookup_fillSlot_self cA.services T (f.build args ctrA) d hlA
              rw [if_neg (by rw [hfired]; simp)] at hfill
              refine ⟨{ d with inst := f.build args ctrA, onceFired := true }, ?_, hsg, h1,
                h1 ▸ hbuild args ctrA, Or.inr rfl⟩
              rw [← h2]
              exact hfill

/-! ### The world layer: singleton identity across arbitrary operations -/

theorem doResolve_evolves (fuel : Nat) (w : World) (s : Site) (t : GoType) :
    Evolves w.c.services (doResolve fuel w s t).2.c.services := by
  cases s with
  | root => exact (cresolve_pres fuel w.c w.ctr t []).1
  | scope i =>
    simp only [doResolve]
    cases w.scopes.get? i with
    | some cache => exact (sresolve_pres fuel w.c cache w.ctr t []).1
    | none => exact Evolves.erefl _

theorem stepW_evolves (w : World) (op : Op) :
    Evolves w.c.services (stepW w op).c.services := by
  cases op with
  | newScope => exact Evolves.erefl _
  | res fuel s t => exact doResolve_evolves fuel w s t

theorem runW_evolves (w : World) (ops : List Op) :
    Evolves w.c.services (runW w ops).c.services := by
  induction ops generalizing w with
  | nil => exact Evolves.erefl _
  | cons op rest ih => exact (stepW_evolves w op).etrans (ih (stepW w op))

theorem doResolve_success_fixed (fuel : Nat) (w w2 : World) (s : Site)
    (T : GoType) (v : Value) (d : ServiceDef)
    (hl : alookup w.c.services T = some d) (hg : GoodSing d)
    (hres : doResolve fuel w s T = (.ok v, w2)) :
    SingletonFixed w2.c.services T v := by
  cases s with
  | root =>
    simp only [doResolve] at hres
    rcases hr : cresolve fuel w.c w.ctr T [] with ⟨r, cB, ctrB⟩
    rw [hr] at hres
    cases r with
    | error e => cases congrArg Prod.fst hres
    | ok v0 =>
      have h1 := congrArg Prod.fst hres
      injection h1 with h1
      have h2 : w2.c = cB := (congrArg (fun p => p.2.c) hres).symm
      have hsf := cresolve_success_fixed fuel w.c cB w.ctr ctrB T [] v0 d hl hg hr
      rw [h2, ← h1]
      exact hsf
  | scope i =>
    simp only [doResolve] at hres
    cases hc : w.scopes.get? i with
    | some cache =>
      rw [hc] at hres
      dsimp only at hres
      rcases hr : sresolve fuel w.c cache w.ctr T [] with ⟨r, cB, cacheB, ctrB⟩
      rw [hr] at hres
      cases r with
      | error e => cases congrArg Prod.fst hres
      | ok v0 =>
        have h1 := congrArg Prod.fst hres
        injection h1 with h1
        have h2 : w2.c = cB := (congrArg (fun p => p.2.c) hres).symm
        have hsf := sresolve_success_fixed fuel w.c cB cache cacheB w.ctr ctrB T [] v0 d
          hl hg hr
        rw [h2, ← h1]
        exact hsf
    | none =>
      rw [hc] at hres
      dsimp only at hres
      cases congrArg Prod.fst hres

theorem doResolve_fixed_val (fuel : Nat) (w w2 : World) (s : Site) (T : GoType)
    (v v2 : Value) (hfix : SingletonFixed w.c.services T v)
    (hres : doResolve fuel w s T = (.ok v2, w2)) : v2 = v := by
  cases s with
  | root =>
    simp only [doResolve] at hres
    cases fuel with
    | zero => rw [cresolve] at hres; cases congrArg Prod.fst hres
    | succ fuel =>
      rw [cresolve_fixed fuel w.c w.ctr T [] v hfix (by simp)] at hres
      have h1 := congrArg Prod.fst hres
      injection h1 with h1
      exact h1.symm
  | scope i =>
    simp only [doResolve] at hres
    cases hc : w.scopes.get? i with
    | some cache =>
      rw [hc] at hres
      dsimp only at hres
      cases fuel with
      | zero => rw [sresolve] at hres; cases congrArg Prod.fst hres
      | succ fuel =>
        rw [sresolve_fixed fuel w.c cache w.ctr T [] v hfix (by simp)] at hres
        have h1 := congrArg Prod.fst hres
        injection h1 with h1
        exact h1.symm
    | none =>
      rw [hc] at hres
      dsimp only at hres
      cases congrArg Prod.fst hres

/-! ### Claim theorems -/

/-- The binding record that `Container.register` stores for a factory with
return type `T`: factory-backed, slot empty, once guard unfired. -/
def freshFactoryDef (f : Factory) (sc : LifetimeScope) (T : GoType) : ServiceDef :=
  { implType := T, scope := sc, inst := .invalid, ctor := some f,
    isInstance := false, onceFired := false }

/-- C1.  Singleton identity: registering a factory stores the binding with
an empty instance slot and an unfired once guard (the value is only created
by a later resolve), and for every binding with Singleton lifetime
satisfying the registration invariant `GoodSing`, any two successful
resolves of it — performed on the root container or on any scopes, with any
other resolves and scope creations interleaved in any order — return the
identical value. -/
theorem singleton_identity :
    (∀ (c c2 : Container) (f : Factory) (sc : LifetimeScope) (T : GoType),
      Container.register c (some (.func f)) sc = .ok c2 → f.retTypes = [T] →
      alookup c2.services T = some (freshFactoryDef f sc T)) ∧
    (∀ (w0 w1 w2 w3 : World) (T : GoType) (d : ServiceDef) (v1 v2 : Value)
      (s1 s2 : Site) (f1 f2 : Nat) (ops : List Op),
      alookup w0.c.services T = some d → GoodSing d →
      doResolve f1 w0 s1 T = (.ok v1, w1) →
      runW w1 ops = w2 →
      doResolve f2 w2 s2 T = (.ok v2, w3) →
      v1 = v2) := by
  constructor
  · intro c c2 f sc T hreg hrt
    rw [Container.register] at hreg
    rw [hrt] at hreg
    dsimp only at hreg
    by_cases hif : T.isInterface = true
    · rw [if_pos hif] at hreg; cases hreg
    · rw [if_neg hif] at hreg
      cases hdup : alookup c.services T with
      | some d0 => rw [hdup] at hreg; cases hreg
      | none =>
        rw [hdup] at hreg
        injection hreg with hreg
        rw [← hreg]
        simp [alookup_cons, freshFactoryDef]
  · intro w0 w1 w2 w3 T d v1 v2 s1 s2 f1 f2 ops hl hg h1 hops h2
    have hfix1 : SingletonFixed w1.c.services T v1 :=
      doResolve_success_fixed f1 w0 w1 s1 T v1 d hl hg h1
    have hfix2 : SingletonFixed w2.c.services T v1 :=
      hfix1.stable (hops ▸ runW_evolves w1 ops)
    exact (doResolve_fixed_val f2 w2 w3 s2 T v1 v2 hfix2 h2).symm

/-! ### Concrete execution scenarios used as witnesses and counterexamples -/

/-- Extracts the container from a successful registration (scaffolding for
the concrete scenarios below; every use is on a registration that succeeds). -/
def getOk : RegRes → Container
  | .ok c => c
  | _ => NewContainer

/-- A parameterless constructor for the service type `base 0`, allocating a
fresh object on each call. -/
def exF0 : Factory :=
  { paramTypes := [], retTypes := [.base 0], build := fun _ n => .obj n }

/-- A container with `base 0` registered as a Singleton factory. -/
def exC1 : Container := getOk (NewContainer.register (some (.func exF0)) .Singleton)

/-- The binding stored by that registration. -/
def exD1 : ServiceDef :=
  { implType := .base 0, scope := .Singleton, inst := .invalid,
    ctor := some exF0, isInstance := false, onceFired := false }

/-- Initial world: the container above plus one scope. -/
def exW0 : World := { c := exC1, scopes := [NewScope], ctr := 0 }

/-- The world after the first (root) resolve: slot filled with `obj 0`. -/
def exW1 : World :=
  { c := { services := [(.base 0, { exD1 with inst := .obj 0, onceFired := true })],
           namedServices := [] },
    scopes := [NewScope], ctr := 1 }

theorem singleton_identity_witness :
    (Container.register NewContainer (some (.func exF0)) .Singleton = .ok exC1 ∧
     exF0.retTypes = [.base 0] ∧
     alookup exC1.services (.base 0) = some exD1) ∧
    (alookup exW0.c.services (.base 0) = some exD1 ∧ GoodSing exD1 ∧
     doResolve 5 exW0 .root (.base 0) = (.ok (.obj 0), exW1) ∧
     runW exW1 [] = exW1 ∧
     doResolve 5 exW1 (.scope 0) (.base 0) = (.ok (.obj 0), exW1) ∧
     (Value.obj 0 = Value.obj 0)) := by
  have hg : GoodSing exD1 := by
    refine ⟨rfl, ?_, ?_⟩
    · intro h
      simp [exD1] at h
    · intro _
      exact ⟨Iff.rfl, exF0, rfl, fun _ _ => rfl⟩
  refine ⟨⟨rfl, rfl, singleton_identity.1 NewContainer exC1 exF0 .Singleton (.base 0)
    rfl rfl⟩, rfl, hg, rfl, rfl, rfl, ?_⟩
  exact singleton_identity.2 exW0 exW1 exW1 exW1 (.base 0) exD1 (.obj 0) (.obj 0)
    .root (.scope 0) 5 5 [] rfl hg rfl rfl rfl

/-- Helper for C2/C3: the root resolver rejects any Scoped binding before
doing anything else (after the existence and cycle checks). -/
theorem cresolve_scoped_root (fuel : Nat) (c : Container) (ctr : Nat) (T : GoType)
    (track : List GoType) (d : ServiceDef) (hl : alookup c.services T = some d)
    (hsc : d.scope = .Scoped) (hnt : T ∉ track) :
    cresolve (fuel + 1) c ctr T track = (.error .scopedOnRoot, c, ctr) := by
  rw [cresolve, hl]
  dsimp only
  rw [if_neg hnt, if_pos hsc]

/-- A Scoped factory for `base 1` whose single dependency `base 2` is not
registered: the root rejects it with scoped-on-root, but a scope resolve
fails as well (with the wrapped not-registered error), refuting the claim
that a scope resolve of any Scoped binding succeeds. -/
def exC3 : Container :=
  getOk (NewContainer.register
    (some (.func { paramTypes := [.base 2], retTypes := [.base 1],
                   build := fun _ n => .obj n })) .Scoped)

theorem scoped_on_root_cex :
    (cresolve 5 exC3 0 (.base 1) []).1 = .error .scopedOnRoot ∧
    (sresolve 5 exC3 [] 0 (.base 1) []).1 =
      .error (.depFailed (.base 2) (.notRegistered (.base 2))) :=
  ⟨rfl, rfl⟩

/-- C3 (amended).  Scoped-on-root rejection: resolving any Scoped binding
from the root container always fails with the scoped-on-root error; from a
scope, resolving it succeeds whenever the binding is pre-built, or
factory-backed with a parameterless single-return constructor (in general a
scope resolve additionally requires the factory's dependencies to
resolve). -/
theorem scoped_on_root_rejection :
    (∀ (fuel : Nat) (c : Container) (ctr : Nat) (T : GoType) (d : ServiceDef),
      alookup c.services T = some d → d.scope = .Scoped →
      cresolve (fuel + 1) c ctr T [] = (.error .scopedOnRoot, c, ctr)) ∧
    (∀ (fuel : Nat) (c : Container) (cache : Cache) (ctr : Nat) (T : GoType)
      (d : ServiceDef),
      alookup c.services T = some d → d.scope = .Scoped → d.isInstance = true →
      ∃ v, (sresolve (fuel + 1) c cache ctr T []).1 = .ok v) ∧
    (∀ (fuel : Nat) (c : Container) (cache : Cache) (ctr : Nat) (T : GoType)
      (d : ServiceDef) (f : Factory),
      alookup c.services T = some d → d.scope = .Scoped → d.isInstance = false →
      d.ctor = some f → f.paramTypes = [] → f.retTypes.length = 1 →
      ∃ v, (sresolve (fuel + 1) c cache ctr T []).1 = .ok v) := by
  refine ⟨?_, ?_, ?_⟩
  · intro fuel c ctr T d hl hsc
    exact cresolve_scoped_root fuel c ctr T [] d hl hsc (by simp)
  · intro fuel c cache ctr T d hl hsc hins
    rw [sresolve, hl]
    dsimp only
    rw [if_neg (by simp : ¬ T ∈ ([] : List GoType))]
    rw [if_neg (fun h => by rw [hsc] at h; exact absurd h.2 (by simp))]
    rw [if_pos ⟨hins, hsc⟩]
    cases hc : alookup cache T with
    | some v =>
      dsimp only
      by_cases hval : v.IsValid = true
      · rw [if_pos hval]
        exact ⟨v, rfl⟩
      · rw [if_neg hval]
        exact ⟨d.inst, rfl⟩
    | none => exact ⟨d.inst, rfl⟩
  · intro fuel c cache ctr T d f hl hsc hins hct hpar hret
    rw [sresolve, hl]
    dsimp only
    rw [if_neg (by simp : ¬ T ∈ ([] : List GoType))]
    rw [if_neg (fun h => by rw [hins] at h; exact absurd h.1 (by simp))]
    rw [if_neg (fun (h : d.isInstance = true ∧ _) => by
      rw [hins] at h; exact absurd h.1 (by simp))]
    rw [if_neg (fun h => by rw [hsc] at h; exact absurd h.1 (by simp))]
    rw [if_pos hsc]
    cases hc : alookup cache T with
    | some v =>
      dsimp only
      by_cases hval : v.IsValid = true
      · rw [if_pos hval]
        exact ⟨v, rfl⟩
      · rw [if_neg hval]
        dsimp only
        rw [hct]
        dsimp only
        rw [hpar]
        dsimp only [assembleParams]
        rw [if_neg (by rw [hret]; simp)]
        exact ⟨f.build [] ctr, rfl⟩
    | none =>
      dsimp only
      rw [hct]
      dsimp only
      rw [hpar]
      dsimp only [assembleParams]
      rw [if_neg (by rw [hret]; simp)]
      exact ⟨f.build [] ctr, rfl⟩

/-- A pre-built Scoped instance for the witness of C3's amended claim. -/
def exC3b : Container :=
  getOk (NewContainer.registerInstance (some (.base 3, .obj 7)) .Scoped)

theorem scoped_on_root_witness :
    (alookup exC3.services (.base 1) ≠ none ∧
     (cresolve 5 exC3 0 (.base 1) []).1 = .error .scopedOnRoot) ∧
    (alookup exC3b.services (.base 3) ≠ none ∧
     (sresolve 5 exC3b [] 0 (.base 3) []).1 = .ok (.obj 7)) := by
  have h1 := scoped_on_root_rejection.1 4 exC3 0 (.base 1)
    { implType := .base 1, scope := .Scoped, inst := .invalid,
      ctor := some { paramTypes := [.base 2], retTypes := [.base 1],
                     build := fun _ n => .obj n },
      isInstance := false, onceFired := false } rfl rfl
  have h2 := scoped_on_root_rejection.2.1 4 exC3b [] 0 (.base 3)
    { implType := .base 3, scope := .Scoped, inst := .obj 7,
      ctor := none, isInstance := true, onceFired := false } rfl rfl rfl
  refine ⟨⟨by simp [exC3, getOk, NewContainer, Container.register, alookup], ?_⟩,
    by simp [exC3b, getOk, NewContainer, Container.registerInstance, alookup], rfl⟩
  rw [h1]

/-- A container holding one named pre-built binding: the named table
survives `Container.Reset` (which only replaces the default table), so the
named resolve still succeeds afterwards, refuting the claim that every
resolve after a reset fails with not-registered. -/
def exC6 : Container :=
  getOk (NewContainer.registerInstanceNamed "a" (some (.base 40, .obj 7)) .Singleton)

theorem reset_cex :
    exC6.Reset.ResolveNamed "a" (.base 40) = .ok (.obj 7) ∧
    exC6.Reset.ResolveNamed "a" (.base 40) ≠
      .error (.notRegistered (.base 40)) := by
  refine ⟨rfl, ?_⟩
  intro h
  rw [(rfl : exC6.Reset.ResolveNamed "a" (.base 40) = .ok (.obj 7))] at h
  cases h

/-- C6 (amended).  After resetting the registration store, every resolve
through the default table — root or scope, any type, any tracker and cache —
fails with the not-registered error; named pre-built bindings survive the
reset, so `ResolveNamed` may still succeed. -/
theorem reset_not_registered :
    ∀ (c : Container) (fuel ctr : Nat) (t : GoType) (track : List GoType)
      (cache : Cache),
      (cresolve (fuel + 1) c.Reset ctr t track).1 = .error (.notRegistered t) ∧
      (sresolve (fuel + 1) c.Reset cache ctr t track).1 =
        .error (.notRegistered t) := by
  intro c fuel ctr t track cache
  constructor
  · rw [cresolve]
    rfl
  · rw [sresolve]
    rfl

/-- When the value is missing *and* the lifetime is Transient, the Transient
check (which runs first, gofac.go:147/223) wins: the returned error is
transient-instance-forbidden, not nil-instance, refuting the claim that a
missing value always yields the nil-instance error. -/
theorem instance_rejection_cex :
    NewContainer.registerInstance none .Transient = .fail .transientInstance ∧
    NewContainer.registerInstance none .Transient ≠ .fail .nilInstance := by
  refine ⟨rfl, ?_⟩
  intro h
  rw [(rfl : NewContainer.registerInstance none .Transient =
    .fail .transientInstance)] at h
  injection h with h
  cases h

/-- C9 (amended).  Instance-registration rejection: for every container,
value and lifetime, register-instance (and its named variant) with
Transient lifetime fails with transient-instance-forbidden; with a missing
(nil) value and a non-Transient lifetime it fails with nil-instance (when
both conditions hold, the Transient check takes precedence); in every such
case nothing is stored — the failing step leaves the container unchanged. -/
theorem instance_rejection :
    (∀ (c : Container) (arg : Option (GoType × Value)),
      c.registerInstance arg .Transient = .fail .transientInstance) ∧
    (∀ (c : Container) (name : String) (arg : Option (GoType × Value)),
      c.registerInstanceNamed name arg .Transient = .fail .transientInstance) ∧
    (∀ (c : Container) (sc : LifetimeScope), sc ≠ .Transient →
      c.registerInstance none sc = .fail .nilInstance) ∧
    (∀ (c : Container) (name : String) (sc : LifetimeScope), sc ≠ .Transient →
      c.registerInstanceNamed name none sc = .fail .nilInstance) ∧
    (∀ (c : Container) (arg : Option (GoType × Value)),
      stepReg c (.regInst arg .Transient) = c ∧
      stepReg c (.regInstNamed "n" arg .Transient) = c) ∧
    (∀ (c : Container) (sc : LifetimeScope) (name : String), sc ≠ .Transient →
      stepReg c (.regInst none sc) = c ∧
      stepReg c (.regInstNamed name none sc) = c) := by
  have h1 : ∀ (c : Container) (arg : Option (GoType × Value)),
      c.registerInstance arg .Transient = .fail .transientInstance := by
    intro c arg
    rw [Container.registerInstance.eq_def, if_pos rfl]
  have h2 : ∀ (c : Container) (name : String) (arg : Option (GoType × Value)),
      c.registerInstanceNamed name arg .Transient = .fail .transientInstance := by
    intro c name arg
    rw [Container.registerInstanceNamed.eq_def, if_pos rfl]
  have h3 : ∀ (c : Container) (sc : LifetimeScope), sc ≠ .Transient →
      c.registerInstance none sc = .fail .nilInstance := by
    intro c sc hsc
    rw [Container.registerInstance.eq_def, if_neg hsc]
  have h4 : ∀ (c : Container) (name : String) (sc : LifetimeScope), sc ≠ .Transient →
      c.registerInstanceNamed name none sc = .fail .nilInstance := by
    intro c name sc hsc
    rw [Container.registerInstanceNamed.eq_def, if_neg hsc]
  refine ⟨h1, h2, h3, h4, ?_, ?_⟩
  · intro c arg
    constructor
    · rw [stepReg, h1]
    · rw [stepReg, h2]
  · intro c sc name hsc
    constructor
    · rw [stepReg, h3 c sc hsc]
    · rw [stepReg, h4 c name sc hsc]

theorem instance_rejection_witness :
    ((.Singleton : LifetimeScope) ≠ .Transient ∧
     NewContainer.registerInstance none .Singleton = .fail .nilInstance) ∧
    NewContainer.registerInstance (some (.base 0, .obj 1)) .Transient =
      .fail .transientInstance :=
  by
  refine ⟨⟨?_, ?_⟩, ?_⟩
  · intro h; cases h
  · exact instance_rejection.2.2.1 NewContainer .Singleton (by intro h; cases h)
  · exact instance_rejection.1 NewContainer (some (.base 0, .obj 1))

/-- C10.  A nil `ctor` argument makes `Register` panic inside reflection
(`reflect.ValueOf(nil)` is the zero Value and `.Type()` panics) instead of
returning the not-a-function error; not-a-function is returned exactly for
the non-nil arguments whose reflect kind is not a function. -/
theorem nil_factory_panics :
    (∀ (c : Container) (sc : LifetimeScope),
      c.register none sc = .panicked) ∧
    (∀ (c : Container) (sc : LifetimeScope) (k : Nat),
      c.register (some (.nonFunc k)) sc = .fail .notFunc) ∧
    (∀ (c : Container) (sc : LifetimeScope) (ctor : Option CtorArg),
      c.register ctor sc = .fail .notFunc → ∃ k, ctor = some (.nonFunc k)) := by
  refine ⟨fun c sc => rfl, fun c sc k => rfl, ?_⟩
  intro c sc ctor hres
  cases ctor with
  | none => cases hres
  | some arg =>
    cases arg with
    | nonFunc k => exact ⟨k, rfl⟩
    | func f =>
      rw [Container.register] at hres
      cases hrt : f.retTypes with
      | nil =>
        rw [hrt] at hres
        dsimp only at hres
        injection hres with h
        cases h
      | cons a rest =>
        cases rest with
        | nil =>
          rw [hrt] at hres
          dsimp only at hres
          by_cases hif : a.isInterface = true
          · rw [if_pos hif] at hres
            injection hres with h
            cases h
          · rw [if_neg hif] at hres
            cases hdup : alookup c.services a with
            | some d0 =>
              rw [hdup] at hres
              injection hres with h
              cases h
            | none =>
              rw [hdup] at hres
              cases hres
        | cons b rest2 =>
          rw [hrt] at hres
          dsimp only at hres
          injection hres with h
          cases h

theorem nil_factory_panics_witness :
    Container.register NewContainer (some (.nonFunc 3)) .Singleton =
      .fail .notFunc ∧
    ∃ k, (some (CtorArg.nonFunc 3) : Option CtorArg) = some (.nonFunc k) :=
  ⟨rfl, nil_factory_panics.2.2 NewContainer .Singleton (some (.nonFunc 3)) rfl⟩

/-! ### Registration uniqueness machinery -/

/-- The `named[name][T]` read: bucket lookup then type lookup. -/
def lookupNamed (c : Container) (name : String) (T : GoType) : Option ServiceDef :=
  match slookup c.namedServices name with
  | none => none
  | some bucket => alookup bucket T

theorem slookup_setBucket_self (l : List (String × SvcTable)) (n : String)
    (b : SvcTable) : slookup (setBucket l n b) n = some b := by
  induction l with
  | nil => simp [setBucket, slookup]
  | cons kw rest ih =>
    obtain ⟨k, w⟩ := kw
    by_cases hk : n = k
    · subst hk; simp [setBucket, slookup]
    · simp [setBucket, hk, slookup, ih]

theorem slookup_setBucket_ne (l : List (String × SvcTable)) (n m : String)
    (b : SvcTable) (h : m ≠ n) : slookup (setBucket l n b) m = slookup l m := by
  induction l with
  | nil => simp [setBucket, slookup, h]
  | cons kw rest ih =>
    obtain ⟨k, w⟩ := kw
    by_cases hk : n = k
    · subst hk; simp [setBucket, slookup, h]
    · simp only [setBucket, if_neg hk, slookup]
      by_cases hm : m = k <;> simp [hm, ih]

/-- A successful factory registration prepends one entry whose key was
previously absent, and leaves the named table unchanged. -/
theorem register_ok_shape (c c2 : Container) (ctor : Option CtorArg)
    (sc : LifetimeScope) (h : c.register ctor sc = .ok c2) :
    ∃ U dU, alookup c.services U = none ∧
      c2.services = (U, dU) :: c.services ∧
      c2.namedServices = c.namedServices := by
  cases ctor with
  | none => cases h
  | some arg =>
    cases arg with
    | nonFunc k => cases h
    | func f =>
      rw [Container.register] at h
      cases hrt : f.retTypes with
      | nil => rw [hrt] at h; cases h
      | cons a rest =>
        cases rest with
        | nil =>
          rw [hrt] at h
          dsimp only at h
          by_cases hif : a.isInterface = true
          · rw [if_pos hif] at h; cases h
          · rw [if_neg hif] at h
            cases hdup : alookup c.services a with
            | some d0 => rw [hdup] at h; cases h
            | none =>
              rw [hdup] at h
              injection h with h
              exact ⟨a, _, hdup, by rw [← h], by rw [← h]⟩
        | cons b rest2 =>
          rw [hrt] at h
          dsimp only at h
          cases h

/-- A successful instance registration prepends one entry whose key was
previously absent, and leaves the named table unchanged. -/
theorem registerInstance_ok_shape (c c2 : Container) (arg : Option (GoType × Value))
    (sc : LifetimeScope) (h : c.registerInstance arg sc = .ok c2) :
    ∃ U dU, alookup c.services U = none ∧
      c2.services = (U, dU) :: c.services ∧
      c2.namedServices = c.namedServices := by
  rw [Container.registerInstance.eq_def] at h
  by_cases hsc : sc = .Transient
  · rw [if_pos hsc] at h; cases h
  · rw [if_neg hsc] at h
    cases arg with
    | none => cases h
    | some tv =>
      obtain ⟨ty, v⟩ := tv
      dsimp only at h
      cases hdup : alookup c.services ty with
      | some d0 => rw [hdup] at h; cases h
      | none =>
        rw [hdup] at h
        injection h with h
        exact ⟨ty, _, hdup, by rw [← h], by rw [← h]⟩

/-- A successful named instance registration leaves the default table
unchanged and extends the addressed bucket with one previously-absent
key. -/
theorem regInstNamed_ok_shape (c c2 : Container) (name : String)
    (arg : Option (GoType × Value)) (sc : LifetimeScope)
    (h : c.registerInstanceNamed name arg sc = .ok c2) :
    ∃ ty dnew, alookup ((slookup c.namedServices name).getD []) ty = none ∧
      c2.namedServices = setBucket c.namedServices name
        ((ty, dnew) :: (slookup c.namedServices name).getD []) ∧
      c2.services = c.services := by
  rw [Container.registerInstanceNamed.eq_def] at h
  by_cases hsc : sc = .Transient
  · rw [if_pos hsc] at h; cases h
  · rw [if_neg hsc] at h
    cases arg with
    | none => cases h
    | some tv =>
      obtain ⟨ty, v⟩ := tv
      dsimp only at h
      by_cases hname : name = ""
      · rw [if_pos hname] at h; cases h
      · rw [if_neg hname] at h
        cases hdup : alookup ((slookup c.namedServices name).getD []) ty with
        | some d0 => rw [hdup] at h; cases h
        | none =>
          rw [hdup] at h
          injection h with h
          exact ⟨ty, _, hdup, by rw [← h], by rw [← h]⟩

theorem stepReg_pres_default (c : Container) (op : RegOp) (T : GoType)
    (d : ServiceDef) (h : alookup c.services T = some d) :
    alookup (stepReg c op).services T = some d := by
  cases op with
  | reg ctor sc =>
    rw [stepReg]
    cases hr : c.register ctor sc with
    | ok c2 =>
      obtain ⟨U, dU, hUnone, hsvc, _⟩ := register_ok_shape c c2 ctor sc hr
      rw [hsvc, alookup_cons]
      rw [if_neg (fun he : T = U => by rw [he, hUnone] at h; cases h)]
      exact h
    | fail e => exact h
    | panicked => exact h
  | regInst arg sc =>
    rw [stepReg]
    cases hr : c.registerInstance arg sc with
    | ok c2 =>
      obtain ⟨U, dU, hUnone, hsvc, _⟩ := registerInstance_ok_shape c c2 arg sc hr
      rw [hsvc, alookup_cons]
      rw [if_neg (fun he : T = U => by rw [he, hUnone] at h; cases h)]
      exact h
    | fail e => exact h
    | panicked => exact h
  | regInstNamed n2 arg sc =>
    rw [stepReg]
    cases hr : c.registerInstanceNamed n2 arg sc with
    | ok c2 =>
      obtain ⟨ty, dnew, _, _, hsvc⟩ := regInstNamed_ok_shape c c2 n2 arg sc hr
      rw [hsvc]
      exact h
    | fail e => exact h
    | panicked => exact h

theorem stepReg_pres_named (c : Container) (op : RegOp) (name : String)
    (T : GoType) (d : ServiceDef) (h : lookupNamed c name T = some d) :
    lookupNamed (stepReg c op) name T = some d := by
  cases op with
  | reg ctor sc =>
    rw [stepReg]
    cases hr : c.register ctor sc with
    | ok c2 =>
      obtain ⟨U, dU, _, _, hnm⟩ := register_ok_shape c c2 ctor sc hr
      rw [lookupNamed, hnm]
      exact h
    | fail e => exact h
    | panicked => exact h
  | regInst arg sc =>
    rw [stepReg]
    cases hr : c.registerInstance arg sc with
    | ok c2 =>
      obtain ⟨U, dU, _, _, hnm⟩ := registerInstance_ok_shape c c2 arg sc hr
      rw [lookupNamed, hnm]
      exact h
    | fail e => exact h
    | panicked => exact h
  | regInstNamed n2 arg sc =>
    rw [stepReg]
    cases hr : c.registerInstanceNamed n2 arg sc with
    | ok c2 =>
      obtain ⟨ty, dnew, htyNone, hnm, _⟩ := regInstNamed_ok_shape c c2 n2 arg sc hr
      rw [lookupNamed, hnm]
      by_cases hn : name = n2
      · subst hn
        rw [slookup_setBucket_self]
        rw [lookupNamed] at h
        cases hb : slookup c.namedServices name with
        | none => rw [hb] at h; cases h
        | some bucket =>
          rw [hb] at h
          rw [hb] at htyNone
          dsimp only [Option.getD] at htyNone
          dsimp only at h
          simp only [hb, Option.getD]
          rw [alookup_cons]
          rw [if_neg (fun he : T = ty => by rw [he, htyNone] at h; cases h)]
          exact h
      · rw [slookup_setBucket_ne _ _ _ _ hn]
        rw [lookupNamed] at h
        exact h
    | fail e => exact h
    | panicked => exact h

theorem runReg_pres_default (c : Container) (ops : List RegOp) (T : GoType)
    (d : ServiceDef) (h : alookup c.services T = some d) :
    alookup (runReg c ops).services T = some d := by
  induction ops generalizing c with
  | nil => exact h
  | cons op rest ih => exact ih (stepReg c op) (stepReg_pres_default c op T d h)

theorem runReg_pres_named (c : Container) (ops : List RegOp) (name : String)
    (T : GoType) (d : ServiceDef) (h : lookupNamed c name T = some d) :
    lookupNamed (runReg c ops) name T = some d := by
  induction ops generalizing c with
  | nil => exact h
  | cons op rest ih => exact ih (stepReg c op) (stepReg_pres_named c op name T d h)

theorem register_dup (c : Container) (T : GoType) (d : ServiceDef) (f : Factory)
    (sc : LifetimeScope) (hl : alookup c.services T = some d)
    (hrt : f.retTypes = [T]) (hif : T.isInterface = false) :
    c.register (some (.func f)) sc = .fail .duplicate := by
  rw [Container.register, hrt]
  dsimp only
  rw [if_neg (by rw [hif]; simp), hl]

theorem registerInstance_dup (c : Container) (T : GoType) (d : ServiceDef)
    (v : Value) (sc : LifetimeScope) (hl : alookup c.services T = some d)
    (hsc : sc ≠ .Transient) :
    c.registerInstance (some (T, v)) sc = .fail .duplicate := by
  rw [Container.registerInstance.eq_def, if_neg hsc]
  dsimp only
  rw [hl]

theorem regInstNamed_dup (c : Container) (name : String) (T : GoType)
    (d : ServiceDef) (v : Value) (sc : LifetimeScope)
    (hl : lookupNamed c name T = some d) (hsc : sc ≠ .Transient)
    (hname : name ≠ "") :
    c.registerInstanceNamed name (some (T, v)) sc = .fail .duplicate := by
  rw [Container.registerInstanceNamed.eq_def, if_neg hsc]
  dsimp only
  rw [if_neg hname]
  rw [lookupNamed] at hl
  cases hb : slookup c.namedServices name with
  | none => rw [hb] at hl; cases hl
  | some bucket =>
    rw [hb] at hl
    dsimp only at hl
    simp only [hb, Option.getD]
    rw [hl]

/-- C8.  Registration uniqueness: once a registration of `T` succeeded in a
table (default table, or the bucket of a given name), that binding survives
any further sequence of registrations unchanged, and every further
registration of `T` in the same table — factory or instance for the default
table, named instance for the bucket — fails with the duplicate error. -/
theorem registration_uniqueness :
    (∀ (c : Container) (T : GoType) (d : ServiceDef) (ops : List RegOp),
      alookup c.services T = some d →
      alookup (runReg c ops).services T = some d ∧
      (∀ (f : Factory) (sc : LifetimeScope), f.retTypes = [T] →
        T.isInterface = false →
        (runReg c ops).register (some (.func f)) sc = .fail .duplicate) ∧
      (∀ (v : Value) (sc : LifetimeScope), sc ≠ .Transient →
        (runReg c ops).registerInstance (some (T, v)) sc = .fail .duplicate)) ∧
    (∀ (c : Container) (name : String) (T : GoType) (d : ServiceDef)
      (ops : List RegOp),
      lookupNamed c name T = some d →
      lookupNamed (runReg c ops) name T = some d ∧
      (∀ (v : Value) (sc : LifetimeScope), sc ≠ .Transient → name ≠ "" →
        (runReg c ops).registerInstanceNamed name (some (T, v)) sc =
          .fail .duplicate)) := by
  constructor
  · intro c T d ops hl
    have hp := runReg_pres_default c ops T d hl
    exact ⟨hp,
      fun f sc hrt hif => register_dup (runReg c ops) T d f sc hp hrt hif,
      fun v sc hsc => registerInstance_dup (runReg c ops) T d v sc hp hsc⟩
  · intro c name T d ops hl
    have hp := runReg_pres_named c ops name T d hl
    exact ⟨hp,
      fun v sc hsc hname => regInstNamed_dup (runReg c ops) name T d v sc hp hsc hname⟩

/-- Witness scenario for C8: after registering the `base 0` factory
(`exC1`) and one unrelated further registration, a duplicate factory and a
duplicate instance registration of `base 0` both fail, and the original
binding is still in place; likewise for a named bucket. -/
def exRegOps : List RegOp :=
  [.regInst (some (.base 9, .obj 5)) .Singleton]

theorem registration_uniqueness_witness :
    (alookup exC1.services (.base 0) = some exD1 ∧
     alookup (runReg exC1 exRegOps).services (.base 0) = some exD1 ∧
     (runReg exC1 exRegOps).register (some (.func exF0)) .Transient =
       .fail .duplicate ∧
     (runReg exC1 exRegOps).registerInstance (some (.base 0, .obj 4)) .Singleton =
       .fail .duplicate) ∧
    (lookupNamed exC6 "a" (.base 40) = some
      ({ implType := .base 40, scope := .Singleton, inst := .obj 7, ctor := none,
         isInstance := true, onceFired := false } : ServiceDef) ∧
     exC6.registerInstanceNamed "a" (some (.base 40, .obj 8)) .Scoped =
       .fail .duplicate) := by
  have h1 := registration_uniqueness.1 exC1 (.base 0) exD1 exRegOps rfl
  have h2 := registration_uniqueness.2 exC6 "a" (.base 40)
    { implType := .base 40, scope := .Singleton, inst := .obj 7, ctor := none,
      isInstance := true, onceFired := false } [] rfl
  refine ⟨⟨rfl, h1.1, h1.2.1 exF0 .Transient rfl rfl, ?_⟩, rfl, ?_⟩
  · exact h1.2.2 (.obj 4) .Singleton (fun h => nomatch h)
  · exact h2.2 (.obj 8) .Scoped (fun h => nomatch h) (fun h => nomatch h)

/-! ### Auto-collection characterisation -/

/-- The number of named pre-built bindings of `E` (buckets whose entry for
`E` carries `isInstance`). -/
def namedPreBuiltCount (named : List (String × SvcTable)) (E : GoType) : Nat :=
  (named.filter fun nb =>
    match alookup nb.2 E with
    | some d => d.isInstance
    | none => false).length

/-- The names of the named pre-built bindings of `V`, in table order. -/
def namedPreBuiltNames (named : List (String × SvcTable)) (V : GoType) :
    List String :=
  named.filterMap fun nb =>
    match alookup nb.2 V with
    | some d => if d.isInstance then some nb.1 else none
    | none => none

theorem collectNamed_length (named : List (String × SvcTable)) (E : GoType) :
    (collectNamed named E).length = namedPreBuiltCount named E := by
  induction named with
  | nil => rfl
  | cons nb rest ih =>
    rw [collectNamed, namedPreBuiltCount] at *
    rw [List.filterMap_cons, List.filter_cons]
    cases hE : alookup nb.2 E with
    | none => simpa [hE] using ih
    | some d =>
      cases hd : d.isInstance with
      | true => simpa [hE, hd] using ih
      | false => simpa [hE, hd] using ih

theorem collectNamedMap_keys (named : List (String × SvcTable)) (V : GoType) :
    (collectNamedMap named V).map Prod.fst = namedPreBuiltNames named V := by
  induction named with
  | nil => rfl
  | cons nb rest ih =>
    rw [collectNamedMap, namedPreBuiltNames] at *
    rw [List.filterMap_cons, List.filterMap_cons]
    cases hV : alookup nb.2 V with
    | none => simpa [hV] using ih
    | some d =>
      cases hd : d.isInstance with
      | true => simpa [hV, hd] using ih
      | false => simpa [hV, hd] using ih

theorem collectNamedMap_length (named : List (String × SvcTable)) (V : GoType) :
    (collectNamedMap named V).length = namedPreBuiltCount named V := by
  induction named with
  | nil => rfl
  | cons nb rest ih =>
    rw [collectNamedMap, namedPreBuiltCount] at *
    rw [List.filterMap_cons, List.filter_cons]
    cases hV : alookup nb.2 V with
    | none => simpa [hV] using ih
    | some d =>
      cases hd : d.isInstance with
      | true => simpa [hV, hd] using ih
      | false => simpa [hV, hd] using ih

/-- Names of pre-built bindings form a sublist of the bucket names, so they
are nodup whenever the bucket names are (Go map keys always are). -/
theorem namedPreBuiltNames_nodup (named : List (String × SvcTable)) (V : GoType)
    (h : (named.map Prod.fst).Nodup) : (namedPreBuiltNames named V).Nodup := by
  induction named with
  | nil => exact List.nodup_nil
  | cons nb rest ih =>
    rw [List.map_cons, List.nodup_cons] at h
    rw [namedPreBuiltNames, List.filterMap_cons]
    have hrest := ih h.2
    cases hV : alookup nb.2 V with
    | none => exact hrest
    | some d =>
      dsimp only
      by_cases hd : d.isInstance = true
      · rw [if_pos hd, List.nodup_cons]
        refine ⟨fun hmem => h.1 ?_, hrest⟩
        obtain ⟨nb2, hnb2, hsome⟩ := List.mem_filterMap.mp hmem
        have : nb2.1 = nb.1 := by
          rcases hE2 : alookup nb2.2 V with _ | d2
          · rw [hE2] at hsome; cases hsome
          · rw [hE2] at hsome
            dsimp only at hsome
            by_cases hi : d2.isInstance = true
            · rw [if_pos hi] at hsome
              injection hsome
            · rw [if_neg hi] at hsome
              cases hsome
        rw [← this]
        exact List.mem_map_of_mem Prod.fst hnb2
      · rw [if_neg hd]
        exact hrest

/-- The sequence-of-E auto-collection rule, as performed by the parameter
loop when the slice type has no registration of its own: the default
binding of `E` is resolved recursively and prepended when that resolve
succeeds, its failure is swallowed (the element omitted, the outer
assembly still succeeding), and the named pre-built stored values follow. -/
theorem assembleParam_slice {σ : Type} (getSvc : σ → SvcTable)
    (getNamed : σ → List (String × SvcTable))
    (res : σ → GoType → Except RErr Value × σ) (st : σ) (E : GoType)
    (hsl : alookup (getSvc st) (.slice E) = none)
    (hE : (alookup (getSvc st) E).isSome = true) :
    (∃ v st2, res st E = (.ok v, st2) ∧
       assembleParam getSvc getNamed res st (.slice E) =
         (.ok (.vlist (v :: collectNamed (getNamed st2) E)), st2)) ∨
    (∃ e st2, res st E = (.error e, st2) ∧
       assembleParam getSvc getNamed res st (.slice E) =
         (.ok (.vlist (collectNamed (getNamed st2) E)), st2)) := by
  simp only [assembleParam]
  rw [hsl]
  cases halE : alookup (getSvc st) E with
  | none => rw [halE] at hE; cases hE
  | some dE =>
    rcases hres : res st E with ⟨r, st2⟩
    cases r with
    | ok v => exact Or.inl ⟨v, st2, rfl, rfl⟩
    | error e => exact Or.inr ⟨e, st2, rfl, rfl⟩

/-- The string-keyed-map auto-collection rule, as performed by the
parameter loop when the map type has no registration of its own: the
argument is exactly the name-to-stored-value mapping over the named
pre-built bindings of `V`, the state is untouched, and the default binding
of `V` is never consulted. -/
theorem assembleParam_smap {σ : Type} (getSvc : σ → SvcTable)
    (getNamed : σ → List (String × SvcTable))
    (res : σ → GoType → Except RErr Value × σ) (st : σ) (V : GoType)
    (hsl : alookup (getSvc st) (.smap V) = none) :
    assembleParam getSvc getNamed res st (.smap V) =
      (.ok (.vmap (collectNamedMap (getNamed st) V)), st) := by
  simp only [assembleParam]
  rw [hsl]

/-- C4.  Auto-sequence composition, for both resolvers: when a factory
parameter is `slice E` with no registration for the slice type and a
default binding for `E` exists, the assembled argument is the recursively
resolved default (placed first) followed by the stored value of every named
pre-built binding of `E`; a failure of the default resolve is swallowed and
its element omitted, so with `k` named pre-built bindings the sequence has
length `k + 1` or `k`. -/
theorem auto_sequence_composition :
    (∀ (fuel : Nat) (c : Container) (ctr : Nat) (E : GoType)
      (track : List GoType),
      alookup c.services (.slice E) = none →
      (alookup c.services E).isSome = true →
      (∃ v c2 ctr2,
        cresolve fuel c ctr E track = (.ok v, c2, ctr2) ∧
        assembleParam (σ := Container × Nat) (fun st => st.1.services)
          (fun st => st.1.namedServices)
          (fun st u => cresolve fuel st.1 st.2 u track) (c, ctr) (.slice E) =
          (.ok (.vlist (v :: collectNamed c.namedServices E)), (c2, ctr2)) ∧
        (v :: collectNamed c.namedServices E).length =
          namedPreBuiltCount c.namedServices E + 1) ∨
      (∃ e c2 ctr2,
        cresolve fuel c ctr E track = (.error e, c2, ctr2) ∧
        assembleParam (σ := Container × Nat) (fun st => st.1.services)
          (fun st => st.1.namedServices)
          (fun st u => cresolve fuel st.1 st.2 u track) (c, ctr) (.slice E) =
          (.ok (.vlist (collectNamed c.namedServices E)), (c2, ctr2)) ∧
        (collectNamed c.namedServices E).length =
          namedPreBuiltCount c.namedServices E)) ∧
    (∀ (fuel : Nat) (c : Container) (cache : Cache) (ctr : Nat) (E : GoType)
      (track : List GoType),
      alookup c.services (.slice E) = none →
      (alookup c.services E).isSome = true →
      (∃ v c2 cache2 ctr2,
        sresolve fuel c cache ctr E track = (.ok v, c2, cache2, ctr2) ∧
        assembleParam (σ := Container × Cache × Nat) (fun st => st.1.services)
          (fun st => st.1.namedServices)
          (fun st u => sresolve fuel st.1 st.2.1 st.2.2 u track)
          (c, cache, ctr) (.slice E) =
          (.ok (.vlist (v :: collectNamed c.namedServices E)), (c2, cache2, ctr2)) ∧
        (v :: collectNamed c.namedServices E).length =
          namedPreBuiltCount c.namedServices E + 1) ∨
      (∃ e c2 cache2 ctr2,
        sresolve fuel c cache ctr E track = (.error e, c2, cache2, ctr2) ∧
        assembleParam (σ := Container × Cache × Nat) (fun st => st.1.services)
          (fun st => st.1.namedServices)
          (fun st u => sresolve fuel st.1 st.2.1 st.2.2 u track)
          (c, cache, ctr) (.slice E) =
          (.ok (.vlist (collectNamed c.namedServices E)), (c2, cache2, ctr2)) ∧
        (collectNamed c.namedServices E).length =
          namedPreBuiltCount c.namedServices E)) := by
  constructor
  · intro fuel c ctr E track hsl hE
    rcases assembleParam_slice (σ := Container × Nat) (fun st => st.1.services)
        (fun st => st.1.namedServices)
        (fun st u => cresolve fuel st.1 st.2 u track) (c, ctr) E hsl hE with
      ⟨v, st2, hres, hasm⟩ | ⟨e, st2, hres, hasm⟩
    · obtain ⟨c2, ctr2⟩ := st2
      have hP := cresolve_pres fuel c ctr E track
      rw [hres] at hP
      rw [hP.2.1] at hasm
      exact Or.inl ⟨v, c2, ctr2, hres, hasm,
        by rw [List.length_cons, collectNamed_length]⟩
    · obtain ⟨c2, ctr2⟩ := st2
      have hP := cresolve_pres fuel c ctr E track
      rw [hres] at hP
      rw [hP.2.1] at hasm
      exact Or.inr ⟨e, c2, ctr2, hres, hasm, collectNamed_length _ _⟩
  · intro fuel c cache ctr E track hsl hE
    rcases assembleParam_slice (σ := Container × Cache × Nat)
        (fun st => st.1.services) (fun st => st.1.namedServices)
        (fun st u => sresolve fuel st.1 st.2.1 st.2.2 u track)
        (c, cache, ctr) E hsl hE with
      ⟨v, st2, hres, hasm⟩ | ⟨e, st2, hres, hasm⟩
    · obtain ⟨c2, cache2, ctr2⟩ := st2
      have hP := sresolve_pres fuel c cache ctr E track
      rw [hres] at hP
      rw [hP.2.1] at hasm
      exact Or.inl ⟨v, c2, cache2, ctr2, hres, hasm,
        by rw [List.length_cons, collectNamed_length]⟩
    · obtain ⟨c2, cache2, ctr2⟩ := st2
      have hP := sresolve_pres fuel c cache ctr E track
      rw [hres] at hP
      rw [hP.2.1] at hasm
      exact Or.inr ⟨e, c2, cache2, ctr2, hres, hasm, collectNamed_length _ _⟩

/-- C5.  Auto-map composition, for both resolvers: when a factory parameter
is `map[string]V` with no registration for the map type, the assembled
argument is exactly the name-to-stored-value mapping over the named
pre-built bindings of `V` (the state untouched, the default binding of `V`
never included), its keys are exactly those names, its size is the number
`k` of named pre-built bindings of `V`, and the keys are nodup whenever the
bucket names are. -/
theorem auto_map_composition :
    (∀ (fuel : Nat) (c : Container) (ctr : Nat) (V : GoType)
      (track : List GoType),
      alookup c.services (.smap V) = none →
      assembleParam (σ := Container × Nat) (fun st => st.1.services)
        (fun st => st.1.namedServices)
        (fun st u => cresolve fuel st.1 st.2 u track) (c, ctr) (.smap V) =
        (.ok (.vmap (collectNamedMap c.namedServices V)), (c, ctr))) ∧
    (∀ (fuel : Nat) (c : Container) (cache : Cache) (ctr : Nat) (V : GoType)
      (track : List GoType),
      alookup c.services (.smap V) = none →
      assembleParam (σ := Container × Cache × Nat) (fun st => st.1.services)
        (fun st => st.1.namedServices)
        (fun st u => sresolve fuel st.1 st.2.1 st.2.2 u track)
        (c, cache, ctr) (.smap V) =
        (.ok (.vmap (collectNamedMap c.namedServices V)), (c, cache, ctr))) ∧
    (∀ (named : List (String × SvcTable)) (V : GoType),
      (collectNamedMap named V).map Prod.fst = namedPreBuiltNames named V ∧
      (collectNamedMap named V).length = namedPreBuiltCount named V ∧
      ((named.map Prod.fst).Nodup → (namedPreBuiltNames named V).Nodup)) := by
  refine ⟨?_, ?_, ?_⟩
  · intro fuel c ctr V track hsl
    exact assembleParam_smap (σ := Container × Nat) (fun st => st.1.services)
      (fun st => st.1.namedServices)
      (fun st u => cresolve fuel st.1 st.2 u track) (c, ctr) V hsl
  · intro fuel c cache ctr V track hsl
    exact assembleParam_smap (σ := Container × Cache × Nat)
      (fun st => st.1.services) (fun st => st.1.namedServices)
      (fun st u => sresolve fuel st.1 st.2.1 st.2.2 u track) (c, cache, ctr) V hsl
  · intro named V
    exact ⟨collectNamedMap_keys named V, collectNamedMap_length named V,
      namedPreBuiltNames_nodup named V⟩

/-- Scenario S5 of the spec: a default pre-built `base 20` plus two named
pre-built ones, with the slice type itself unregistered. -/
def exCSl : Container :=
  getOk ((getOk ((getOk (NewContainer.registerInstance
    (some (.base 20, .obj 100)) .Singleton)).registerInstanceNamed
    "r1" (some (.base 20, .obj 101)) .Singleton)).registerInstanceNamed
    "r2" (some (.base 20, .obj 102)) .Singleton)

theorem auto_sequence_witness :
    alookup exCSl.services (.slice (.base 20)) = none ∧
    (alookup exCSl.services (.base 20)).isSome = true ∧
    assembleParam (σ := Container × Nat) (fun st => st.1.services)
      (fun st => st.1.namedServices)
      (fun st u => cresolve 5 st.1 st.2 u []) (exCSl, 0) (.slice (.base 20)) =
      (.ok (.vlist [.obj 100, .obj 101, .obj 102]), (exCSl, 0)) ∧
    namedPreBuiltCount exCSl.namedServices (.base 20) = 2 := by
  refine ⟨rfl, rfl, ?_, rfl⟩
  rcases auto_sequence_composition.1 5 exCSl 0 (.base 20) [] rfl rfl with
    ⟨v, c2, ctr2, hres, hasm, _⟩ | ⟨e, c2, ctr2, hres, _, _⟩
  · have hcomp : cresolve 5 exCSl 0 (.base 20) [] =
        (.ok (Value.obj 100), exCSl, 0) := rfl
    rw [hcomp] at hres
    injection hres with h1 h2
    injection h1 with h1
    injection h2 with h2 h3
    subst h1
    subst h2
    subst h3
    rw [hasm]
    rfl
  · have hcomp : cresolve 5 exCSl 0 (.base 20) [] =
        (.ok (Value.obj 100), exCSl, 0) := rfl
    rw [hcomp] at hres
    cases hres

/-- Scenario S6 of the spec: two named pre-built `base 30` bindings, no
default, with the map type itself unregistered. -/
def exCM : Container :=
  getOk ((getOk (NewContainer.registerInstanceNamed
    "primary" (some (.base 30, .obj 200)) .Singleton)).registerInstanceNamed
    "replica" (some (.base 30, .obj 201)) .Singleton)

theorem auto_map_witness :
    alookup exCM.services (.smap (.base 30)) = none ∧
    assembleParam (σ := Container × Nat) (fun st => st.1.services)
      (fun st => st.1.namedServices)
      (fun st u => cresolve 5 st.1 st.2 u []) (exCM, 0) (.smap (.base 30)) =
      (.ok (.vmap [("primary", .obj 200), ("replica", .obj 201)]), (exCM, 0)) ∧
    namedPreBuiltNames exCM.namedServices (.base 30) = ["primary", "replica"] := by
  refine ⟨rfl, ?_, rfl⟩
  have h := auto_map_composition.1 5 exCM 0 (.base 30) [] rfl
  rw [h]
  rfl

/-! ### Cycle rejection -/

/-- How many of the cycle's types are already on the tracker. -/
def countIn (cyc track : List GoType) : Nat :=
  (cyc.filter fun x => decide (x ∈ track)).length

theorem countIn_le (cyc track : List GoType) : countIn cyc track ≤ cyc.length :=
  List.length_filter_le _ cyc

theorem countIn_lt (cyc track : List GoType) (T : GoType) (hT : T ∈ cyc)
    (hnt : T ∉ track) : countIn cyc track < cyc.length := by
  induction cyc with
  | nil => cases hT
  | cons a rest ih =>
    rw [countIn, List.filter_cons]
    rcases List.mem_cons.mp hT with rfl | hT2
    · rw [if_neg (by simpa using hnt)]
      simp only [List.length_cons]
      exact Nat.lt_succ_of_le (countIn_le rest track)
    · by_cases ha : a ∈ track
      · rw [if_pos (by simpa using ha)]
        simpa [countIn] using ih hT2
      · rw [if_neg (by simpa using ha)]
        simp only [List.length_cons]
        exact Nat.lt_succ_of_le (Nat.le_of_lt (ih hT2))

theorem countIn_cons (cyc track : List GoType) (T : GoType) (hT : T ∈ cyc)
    (hnt : T ∉ track) (hnd : cyc.Nodup) :
    countIn cyc (T :: track) = countIn cyc track + 1 := by
  induction cyc with
  | nil => cases hT
  | cons a rest ih =>
    rw [List.nodup_cons] at hnd
    rw [countIn, countIn, List.filter_cons, List.filter_cons]
    rcases List.mem_cons.mp hT with rfl | hT2
    · rw [if_pos (by simp), if_neg (by simpa using hnt)]
      have hcong : rest.filter (fun x => decide (x ∈ T :: track)) =
          rest.filter (fun x => decide (x ∈ track)) := by
        apply List.filter_congr
        intro x hx
        have hxa : x ≠ T := fun he => hnd.1 (he ▸ hx)
        simp [List.mem_cons, hxa]
      rw [hcong]
      simp [countIn]
    · have hTa : T ≠ a := fun he => hnd.1 (he ▸ hT2)
      have hstep := ih hT2 hnd.2
      rw [countIn, countIn] at hstep
      by_cases ha : a ∈ track
      · rw [if_pos (by simp [ha]), if_pos (by simpa using ha)]
        simpa using hstep
      · rw [if_neg (by simp [ha, Ne.symm hTa]), if_neg (by simpa using ha)]
        exact hstep

/-- A directed cycle of factory-backed bindings in the table: each type on
the cycle is registered as a factory (slot unfilled) whose parameter list
is exactly the next type on the cycle. -/
def CycleAt (svc : SvcTable) (cyc : List GoType) : Prop :=
  ∀ i (hi : i < cyc.length), ∃ d f,
    alookup svc (cyc.get ⟨i, hi⟩) = some d ∧
    d.isInstance = false ∧ d.inst = .invalid ∧ d.ctor = some f ∧
    f.paramTypes = [cyc.get ⟨(i + 1) % cyc.length,
      Nat.mod_lt _ (Nat.lt_of_le_of_lt (Nat.zero_le i) hi)⟩]

theorem sresolve_cycle (cyc : List GoType) (hnd : cyc.Nodup)
    (hbase : ∀ t ∈ cyc, ∃ m, t = GoType.base m) :
    ∀ (fuel : Nat) (c : Container) (cache : Cache) (ctr : Nat)
      (track : List GoType) (i : Nat) (hi : i < cyc.length),
      CycleAt c.services cyc →
      (∀ t ∈ cyc, alookup cache t = none) →
      cyc.length - countIn cyc track < fuel →
      ∃ e, sresolve fuel c cache ctr (cyc.get ⟨i, hi⟩) track =
        (.error e, c, cache, ctr) ∧ e.isCircular = true := by
  intro fuel
  induction fuel with
  | zero =>
    intro c cache ctr track i hi hcyc hcache hfuel
    omega
  | succ fuel ih =>
    intro c cache ctr track i hi hcyc hcache hfuel
    obtain ⟨d, f, hl, hins, hinv, hct, hparams⟩ := hcyc i hi
    have hT : cyc.get ⟨i, hi⟩ ∈ cyc := List.get_mem cyc i hi
    rw [sresolve, hl]
    dsimp only
    by_cases hm : cyc.get ⟨i, hi⟩ ∈ track
    · rw [if_pos hm]
      exact ⟨.circular _, rfl, rfl⟩
    · rw [if_neg hm]
      have hins2 : ¬(d.isInstance = true) := by simp [hins]
      rw [if_neg (fun h => hins2 h.1)]
      rw [if_neg (fun (h : d.isInstance = true ∧ _) => hins2 h.1)]
      rw [if_neg (fun h => by rw [hinv] at h; exact absurd h.2 (by simp [Value.IsValid]))]
      have hhit : (if d.scope = .Scoped then
          match alookup cache (cyc.get ⟨i, hi⟩) with
          | some v => if v.IsValid then some v else none
          | none => none
        else none) = none := by
        by_cases hscd : d.scope = .Scoped
        · rw [if_pos hscd, hcache _ hT]
        · rw [if_neg hscd]
      rw [hhit]
      dsimp only
      rw [hct]
      dsimp only
      rw [hparams]
      have hj := Nat.mod_lt (i + 1) (Nat.lt_of_le_of_lt (Nat.zero_le i) hi)
      obtain ⟨m, hpm⟩ := hbase (cyc.get ⟨(i + 1) % cyc.length, hj⟩)
        (List.get_mem cyc _ hj)
      have hmeas : cyc.length - countIn cyc (cyc.get ⟨i, hi⟩ :: track) < fuel := by
        have h1 := countIn_cons cyc track (cyc.get ⟨i, hi⟩) hT hm hnd
        have h2 := countIn_lt cyc track (cyc.get ⟨i, hi⟩) hT hm
        omega
      obtain ⟨e2, hres2, hcirc2⟩ := ih c cache ctr (cyc.get ⟨i, hi⟩ :: track)
        ((i + 1) % cyc.length) hj hcyc hcache hmeas
      rw [hpm] at hres2
      simp only [assembleParams, assembleParam, hpm]
      rw [hres2]
      exact ⟨.depFailed (.base m) e2, rfl, by simpa [RErr.isCircular] using hcirc2⟩

theorem cresolve_cycle (cyc : List GoType) (hnd : cyc.Nodup)
    (hbase : ∀ t ∈ cyc, ∃ m, t = GoType.base m) :
    ∀ (fuel : Nat) (c : Container) (ctr : Nat) (track : List GoType)
      (i : Nat) (hi : i < cyc.length),
      CycleAt c.services cyc →
      (∀ t d0, t ∈ cyc → alookup c.services t = some d0 → d0.scope ≠ .Scoped) →
      cyc.length - countIn cyc track < fuel →
      ∃ e, cresolve fuel c ctr (cyc.get ⟨i, hi⟩) track =
        (.error e, c, ctr) ∧ e.isCircular = true := by
  intro fuel
  induction fuel with
  | zero =>
    intro c ctr track i hi hcyc hns hfuel
    omega
  | succ fuel ih =>
    intro c ctr track i hi hcyc hns hfuel
    obtain ⟨d, f, hl, hins, hinv, hct, hparams⟩ := hcyc i hi
    have hT : cyc.get ⟨i, hi⟩ ∈ cyc := List.get_mem cyc i hi
    rw [cresolve, hl]
    dsimp only
    by_cases hm : cyc.get ⟨i, hi⟩ ∈ track
    · rw [if_pos hm]
      exact ⟨.circular _, rfl, rfl⟩
    · rw [if_neg hm]
      rw [if_neg (hns _ d hT hl)]
      have hins2 : ¬(d.isInstance = true) := by simp [hins]
      rw [if_neg hins2]
      rw [if_neg (fun h => by rw [hinv] at h; exact absurd h.2 (by simp [Value.IsValid]))]
      rw [hct]
      dsimp only
      rw [hparams]
      have hj := Nat.mod_lt (i + 1) (Nat.lt_of_le_of_lt (Nat.zero_le i) hi)
      obtain ⟨m, hpm⟩ := hbase (cyc.get ⟨(i + 1) % cyc.length, hj⟩)
        (List.get_mem cyc _ hj)
      have hmeas : cyc.length - countIn cyc (cyc.get ⟨i, hi⟩ :: track) < fuel := by
        have h1 := countIn_cons cyc track (cyc.get ⟨i, hi⟩) hT hm hnd
        have h2 := countIn_lt cyc track (cyc.get ⟨i, hi⟩) hT hm
        omega
      obtain ⟨e2, hres2, hcirc2⟩ := ih c ctr (cyc.get ⟨i, hi⟩ :: track)
        ((i + 1) % cyc.length) hj hcyc hns hmeas
      rw [hpm] at hres2
      simp only [assembleParams, assembleParam, hpm]
      rw [hres2]
      exact ⟨.depFailed (.base m) e2, rfl, by simpa [RErr.isCircular] using hcirc2⟩

theorem countIn_nil (cyc : List GoType) : countIn cyc [] = 0 := by
  simp [countIn]

/-- Mutually dependent Scoped factories: resolving one of them from the
root fails, but with the scoped-on-root error — which is not the
circular-dependency error — because the Scoped check precedes the descent
that would revisit the cycle. -/
def exFA : Factory :=
  { paramTypes := [.base 11], retTypes := [.base 10], build := fun _ n => .obj n }

def exFB : Factory :=
  { paramTypes := [.base 10], retTypes := [.base 11], build := fun _ n => .obj n }

def exCycScoped : Container :=
  getOk ((getOk (NewContainer.register (some (.func exFA)) .Scoped)).register
    (some (.func exFB)) .Scoped)

theorem cycle_cex :
    (cresolve 9 exCycScoped 0 (.base 10) []).1 = .error .scopedOnRoot ∧
    RErr.isCircular .scopedOnRoot = false :=
  ⟨rfl, rfl⟩

/-- C2 (amended).  Cycle rejection: for a registration graph with a
directed cycle of factory-backed bindings (each factory's parameter being
the next type on the cycle, slots unfilled), resolving any type on the
cycle from a scope fails and the error is the circular-dependency error;
the same holds from the root container when no binding on the cycle is
Scoped; when the resolved binding is Scoped, the root resolve still fails,
but with the scoped-on-root error, which preempts cycle detection. -/
theorem cycle_rejection :
    (∀ (cyc : List GoType) (fuel : Nat) (c : Container) (cache : Cache)
      (ctr : Nat) (i : Nat) (hi : i < cyc.length),
      cyc.Nodup → (∀ t ∈ cyc, ∃ m, t = GoType.base m) →
      CycleAt c.services cyc → (∀ t ∈ cyc, alookup cache t = none) →
      cyc.length < fuel →
      ∃ e, sresolve fuel c cache ctr (cyc.get ⟨i, hi⟩) [] =
        (.error e, c, cache, ctr) ∧ e.isCircular = true) ∧
    (∀ (cyc : List GoType) (fuel : Nat) (c : Container) (ctr : Nat)
      (i : Nat) (hi : i < cyc.length),
      cyc.Nodup → (∀ t ∈ cyc, ∃ m, t = GoType.base m) →
      CycleAt c.services cyc →
      (∀ t d0, t ∈ cyc → alookup c.services t = some d0 → d0.scope ≠ .Scoped) →
      cyc.length < fuel →
      ∃ e, cresolve fuel c ctr (cyc.get ⟨i, hi⟩) [] =
        (.error e, c, ctr) ∧ e.isCircular = true) ∧
    (∀ (fuel : Nat) (c : Container) (ctr : Nat) (cyc : List GoType)
      (i : Nat) (hi : i < cyc.length) (d : ServiceDef),
      CycleAt c.services cyc →
      alookup c.services (cyc.get ⟨i, hi⟩) = some d → d.scope = .Scoped →
      cresolve (fuel + 1) c ctr (cyc.get ⟨i, hi⟩) [] =
        (.error .scopedOnRoot, c, ctr) ∧
      RErr.isCircular .scopedOnRoot = false) := by
  refine ⟨?_, ?_, ?_⟩
  · intro cyc fuel c cache ctr i hi hnd hbase hcyc hcache hfl
    exact sresolve_cycle cyc hnd hbase fuel c cache ctr [] i hi hcyc hcache
      (by rw [countIn_nil]; omega)
  · intro cyc fuel c ctr i hi hnd hbase hcyc hns hfl
    exact cresolve_cycle cyc hnd hbase fuel c ctr [] i hi hcyc hns
      (by rw [countIn_nil]; omega)
  · intro fuel c ctr cyc i hi d _ hl hsc
    exact ⟨cresolve_scoped_root fuel c ctr _ [] d hl hsc (by simp), rfl⟩

/-- Mutually dependent Transient factories for the witness. -/
def exCycT : Container :=
  getOk ((getOk (NewContainer.register (some (.func exFA)) .Transient)).register
    (some (.func exFB)) .Transient)

theorem cycle_rejection_witness :
    ([GoType.base 10, .base 11].Nodup ∧
     CycleAt exCycT.services [.base 10, .base 11] ∧
     CycleAt exCycScoped.services [.base 10, .base 11]) ∧
    (∃ e, sresolve 9 exCycT [] 0 (.base 10) [] = (.error e, exCycT, [], 0) ∧
      e.isCircular = true) ∧
    (∃ e, cresolve 9 exCycT 0 (.base 10) [] = (.error e, exCycT, 0) ∧
      e.isCircular = true) ∧
    cresolve 9 exCycScoped 0 (.base 10) [] = (.error .scopedOnRoot, exCycScoped, 0) := by
  have hnd : ([GoType.base 10, .base 11] : List GoType).Nodup := by decide
  have hbase : ∀ t ∈ ([GoType.base 10, .base 11] : List GoType),
      ∃ m, t = GoType.base m := by
    intro t ht
    rcases List.mem_cons.mp ht with rfl | ht2
    · exact ⟨10, rfl⟩
    · rcases List.mem_cons.mp ht2 with rfl | ht3
      · exact ⟨11, rfl⟩
      · cases ht3
  have hcycT : CycleAt exCycT.services [.base 10, .base 11] := by
    intro i hi
    have hi2 : i < 2 := by simpa using hi
    interval_cases i
    · exact ⟨_, exFA, rfl, rfl, rfl, rfl, rfl⟩
    · exact ⟨_, exFB, rfl, rfl, rfl, rfl, rfl⟩
  have hcycS : CycleAt exCycScoped.services [.base 10, .base 11] := by
    intro i hi
    have hi2 : i < 2 := by simpa using hi
    interval_cases i
    · exact ⟨_, exFA, rfl, rfl, rfl, rfl, rfl⟩
    · exact ⟨_, exFB, rfl, rfl, rfl, rfl, rfl⟩
  have hns : ∀ t d0, t ∈ ([GoType.base 10, .base 11] : List GoType) →
      alookup exCycT.services t = some d0 → d0.scope ≠ .Scoped := by
    intro t d0 ht hl
    rcases List.mem_cons.mp ht with rfl | ht2
    · have h2 : some d0 = some (freshFactoryDef exFA .Transient (.base 10)) :=
        hl.symm.trans rfl
      injection h2 with h2
      rw [h2]
      intro h
      cases h
    · rcases List.mem_cons.mp ht2 with rfl | ht3
      · have h2 : some d0 = some (freshFactoryDef exFB .Transient (.base 11)) :=
          hl.symm.trans rfl
        injection h2 with h2
        rw [h2]
        intro h
        cases h
      · cases ht3
  have hcache : ∀ t ∈ ([GoType.base 10, .base 11] : List GoType),
      alookup ([] : Cache) t = none := fun t _ => rfl
  refine ⟨⟨hnd, hcycT, hcycS⟩, ?_, ?_, ?_⟩
  · exact cycle_rejection.1 [.base 10, .base 11] 9 exCycT [] 0 0 (by decide)
      hnd hbase hcycT hcache (by decide)
  · exact cycle_rejection.2.1 [.base 10, .base 11] 9 exCycT 0 0 (by decide)
      hnd hbase hcycT hns (by decide)
  · exact (cycle_rejection.2.2 8 exCycScoped 0 [.base 10, .base 11] 0 (by decide)
      (freshFactoryDef exFA .Scoped (.base 10)) hcycS rfl rfl).1

/-! ### Scoped identity -/

/-- What registration guarantees about a Scoped binding: a pre-built one
carries a valid value; a factory-backed one has a constructor whose calls
return valid values. -/
def GoodScoped (d : ServiceDef) : Prop :=
  d.scope = .Scoped ∧
  (d.isInstance = true → d.inst.IsValid = true) ∧
  (d.isInstance = false →
    ∃ f, d.ctor = some f ∧ ∀ args n, (f.build args n).IsValid = true)

/-- A scope resolve of a Scoped binding with a valid per-scope cache entry
returns that entry and changes nothing. -/
theorem sresolve_scoped_cached (fuel : Nat) (c : Container) (cache : Cache)
    (ctr : Nat) (T : GoType) (track : List GoType) (v : Value) (d : ServiceDef)
    (hl : alookup c.services T = some d) (hsc : d.scope = .Scoped)
    (hc : alookup cache T = some v) (hv : v.IsValid = true) (hnt : T ∉ track) :
    sresolve (fuel + 1) c cache ctr T track = (.ok v, c, cache, ctr) := by
  rw [sresolve, hl]
  dsimp only
  rw [if_neg hnt]
  rw [if_neg (fun h => by rw [hsc] at h; exact absurd h.2 (by simp))]
  by_cases hins : d.isInstance = true
  · rw [if_pos ⟨hins, hsc⟩, hc]
    dsimp only
    rw [if_pos hv]
  · rw [if_neg (fun (h : d.isInstance = true ∧ _) => hins h.1)]
    rw [if_neg (fun h => by rw [hsc] at h; exact absurd h.1 (by simp))]
    rw [if_pos hsc, hc]
    dsimp only
    rw [if_pos hv]

/-- A successful scope resolve of a Scoped binding leaves the returned
value (valid) in the per-scope cache. -/
theorem sresolve_scoped_success (fuel : Nat) (c c2 : Container)
    (cache cache2 : Cache) (ctr ctr2 : Nat) (T : GoType) (track : List GoType)
    (v : Value) (d : ServiceDef) (hl : alookup c.services T = some d)
    (hg : GoodScoped d)
    (hres : sresolve fuel c cache ctr T track = (.ok v, c2, cache2, ctr2)) :
    alookup cache2 T = some v ∧ v.IsValid = true := by
  obtain ⟨hsc, hgi, hgf⟩ := hg
  cases fuel with
  | zero => rw [sresolve] at hres; cases hres
  | succ fuel =>
    rw [sresolve, hl] at hres
    dsimp only at hres
    by_cases hm : T ∈ track
    · rw [if_pos hm] at hres; cases hres
    · rw [if_neg hm] at hres
      rw [if_neg (fun h => by rw [hsc] at h; exact absurd h.2 (by simp))] at hres
      by_cases hins : d.isInstance = true
      · rw [if_pos ⟨hins, hsc⟩] at hres
        cases hc : alookup cache T with
        | some v0 =>
          rw [hc] at hres
          dsimp only at hres
          by_cases hval : v0.IsValid = true
          · rw [if_pos hval] at hres
            injection hres with h1 h2
            injection h1 with h1
            injection h2 with h2 h3
            injection h3 with h3 h4
            subst h3
            exact ⟨h1 ▸ hc, h1 ▸ hval⟩
          · rw [if_neg hval] at hres
            injection hres with h1 h2
            injection h1 with h1
            injection h2 with h2 h3
            injection h3 with h3 h4
            subst h3
            refine ⟨h1 ▸ ?_, h1 ▸ hgi hins⟩
            exact alookup_setCache_self cache T d.inst
        | none =>
          rw [hc] at hres
          injection hres with h1 h2
          injection h1 with h1
          injection h2 with h2 h3
          injection h3 with h3 h4
          subst h3
          refine ⟨h1 ▸ ?_, h1 ▸ hgi hins⟩
          exact alookup_setCache_self cache T d.inst
      · rw [if_neg (fun (h : d.isInstance = true ∧ _) => hins h.1)] at hres
        rw [if_neg (fun h => by rw [hsc] at h; exact absurd h.1 (by simp))] at hres
        have hins2 : d.isInstance = false := by
          rcases Bool.eq_false_or_eq_true d.isInstance with h | h
          · exact absurd h hins
          · exact h
        obtain ⟨f, hct, hbuild⟩ := hgf hins2
        rw [if_pos hsc] at hres
        cases hc : alookup cache T with
        | some v0 =>
          rw [hc] at hres
          dsimp only at hres
          by_cases hval : v0.IsValid = true
          · rw [if_pos hval] at hres
            dsimp only at hres
            injection hres with h1 h2
            injection h1 with h1
            injection h2 with h2 h3
            injection h3 with h3 h4
            subst h3
            exact ⟨h1 ▸ hc, h1 ▸ hval⟩
          · rw [if_neg hval] at hres
            dsimp only at hres
            rw [hct] at hres
            dsimp only at hres
            rcases hA : assembleParams (σ := Container × Cache × Nat)
                (fun st => st.1.services) (fun st => st.1.namedServices)
                (fun st u => sresolve fuel st.1 st.2.1 st.2.2 u (T :: track))
                (c, cache, ctr) f.paramTypes with ⟨r, cA, cacheA, ctrA⟩
            rw [hA] at hres
            cases r with
            | error e => cases hres
            | ok args =>
              dsimp only at hres
              by_cases hrt : f.retTypes.length ≠ 1
              · rw [if_pos hrt] at hres; cases hres
              · rw [if_neg hrt, if_pos hsc] at hres
                injection hres with h1 h2
                injection h1 with h1
                injection h2 with h2 h3
                injection h3 with h3 h4
                subst h3
                refine ⟨h1 ▸ ?_, h1 ▸ hbuild args ctrA⟩
                exact alookup_setCache_self cacheA T (f.build args ctrA)
        | none =>
          rw [hc] at hres
          dsimp only at hres
          rw [hct] at hres
          dsimp only at hres
          rcases hA : assembleParams (σ := Container × Cache × Nat)
              (fun st => st.1.services) (fun st => st.1.namedServices)
              (fun st u => sresolve fuel st.1 st.2.1 st.2.2 u (T :: track))
              (c, cache, ctr) f.paramTypes with ⟨r, cA, cacheA, ctrA⟩
          rw [hA] at hres
          cases r with
          | error e => cases hres
          | ok args =>
            dsimp only at hres
            by_cases hrt : f.retTypes.length ≠ 1
            · rw [if_pos hrt] at hres; cases hres
            · rw [if_neg hrt, if_pos hsc] at hres
              injection hres with h1 h2
              injection h1 with h1
              injection h2 with h2 h3
              injection h3 with h3 h4
              subst h3
              refine ⟨h1 ▸ ?_, h1 ▸ hbuild args ctrA⟩
              exact alookup_setCache_self cacheA T (f.build args ctrA)

/-- State evolution preserves a binding's lifetime, discriminator and
constructor (only the slot and guard can change). -/
theorem evolves_scoped_def {s s2 : SvcTable} {T : GoType} {d : ServiceDef}
    (he : Evolves s s2) (hl : alookup s T = some d) :
    ∃ d2, alookup s2 T = some d2 ∧ d2.scope = d.scope ∧
      d2.isInstance = d.isInstance ∧ d2.ctor = d.ctor := by
  obtain ⟨d2, hl2, hde⟩ := (he T).1 d hl
  rcases hde with heq | ⟨_, _, w, heq⟩
  · exact ⟨d2, hl2, by rw [heq], by rw [heq], by rw [heq]⟩
  · exact ⟨d2, hl2, by rw [heq], by rw [heq], by rw [heq]⟩

/-- Scope `i`'s cache holds the valid value `v` for `T`. -/
def ScopedCacheFixed (w : World) (i : Nat) (T : GoType) (v : Value) : Prop :=
  ∃ cache, w.scopes.get? i = some cache ∧ alookup cache T = some v ∧
    v.IsValid = true

theorem stepW_pres_scached (w : World) (op : Op) (i : Nat) (T : GoType)
    (v : Value) (h : ScopedCacheFixed w i T v) :
    ScopedCacheFixed (stepW w op) i T v := by
  obtain ⟨cache, hg, hc, hv⟩ := h
  have hlen : i < w.scopes.length := (List.get?_eq_some.mp hg).fst
  cases op with
  | newScope =>
    refine ⟨cache, ?_, hc, hv⟩
    rw [stepW]
    rw [List.get?_append hlen]
    exact hg
  | res fuel s t =>
    cases s with
    | root => exact ⟨cache, hg, hc, hv⟩
    | scope k =>
      simp only [stepW, doResolve]
      cases hck : w.scopes.get? k with
      | none => exact ⟨cache, hg, hc, hv⟩
      | some cachek =>
        dsimp only
        by_cases hki : k = i
        · subst hki
          have hce : cachek = cache := by
            rw [hg] at hck
            injection hck with hck
            exact hck.symm
          subst hce
          refine ⟨(sresolve fuel w.c cachek w.ctr t []).2.2.1, ?_, ?_, hv⟩
          · exact List.get?_set_eq_of_lt _ hlen
          · exact (sresolve_pres fuel w.c cachek w.ctr t []).2.2.2.1 T v hc hv
        · refine ⟨cache, ?_, hc, hv⟩
          rw [List.get?_set_ne _ _ hki]
          exact hg

theorem runW_pres_scached (w : World) (ops : List Op) (i : Nat) (T : GoType)
    (v : Value) (h : ScopedCacheFixed w i T v) :
    ScopedCacheFixed (runW w ops) i T v := by
  induction ops generalizing w with
  | nil => exact h
  | cons op rest ih => exact ih (stepW w op) (stepW_pres_scached w op i T v h)

theorem doResolve_scoped_success_fixed (fuel : Nat) (w w2 : World) (i : Nat)
    (T : GoType) (v : Value) (d : ServiceDef)
    (hl : alookup w.c.services T = some d) (hg : GoodScoped d)
    (hres : doResolve fuel w (.scope i) T = (.ok v, w2)) :
    ScopedCacheFixed w2 i T v := by
  simp only [doResolve] at hres
  cases hck : w.scopes.get? i with
  | none =>
    rw [hck] at hres
    dsimp only at hres
    cases congrArg Prod.fst hres
  | some cache =>
    rw [hck] at hres
    dsimp only at hres
    rcases hr : sresolve fuel w.c cache w.ctr T [] with ⟨r, cB, cacheB, ctrB⟩
    rw [hr] at hres
    cases r with
    | error e => cases congrArg Prod.fst hres
    | ok v0 =>
      have h1 := congrArg Prod.fst hres
      injection h1 with h1
      have h2 : w2.scopes = w.scopes.set i cacheB :=
        (congrArg (fun p => p.2.scopes) hres).symm
      obtain ⟨hcB, hvB⟩ := sresolve_scoped_success fuel w.c cB cache cacheB
        w.ctr ctrB T [] v0 d hl hg hr
      have hlen : i < w.scopes.length := (List.get?_eq_some.mp hck).fst
      refine ⟨cacheB, ?_, h1 ▸ hcB, h1 ▸ hvB⟩
      rw [h2]
      exact List.get?_set_eq_of_lt _ hlen

theorem doResolve_scached_val (fuel : Nat) (w w2 : World) (i : Nat) (T : GoType)
    (v v2 : Value) (d : ServiceDef) (hfix : ScopedCacheFixed w i T v)
    (hl : alookup w.c.services T = some d) (hsc : d.scope = .Scoped)
    (hres : doResolve fuel w (.scope i) T = (.ok v2, w2)) : v2 = v := by
  obtain ⟨cache, hg, hc, hv⟩ := hfix
  simp only [doResolve] at hres
  rw [hg] at hres
  dsimp only at hres
  cases fuel with
  | zero => rw [sresolve] at hres; cases congrArg Prod.fst hres
  | succ fuel =>
    rw [sresolve_scoped_cached fuel w.c cache w.ctr T [] v d hl hsc hc hv
      (by simp)] at hres
    have h1 := congrArg Prod.fst hres
    injection h1 with h1
    exact h1.symm

/-- `T` is registered as a factory-backed Scoped binding with constructor
`f`. -/
def ScopedFactoryAt (svc : SvcTable) (T : GoType) (f : Factory) : Prop :=
  ∃ d, alookup svc T = some d ∧ d.scope = .Scoped ∧ d.isInstance = false ∧
    d.ctor = some f

theorem ScopedFactoryAt.stableF {s s2 : SvcTable} {T : GoType} {f : Factory}
    (he : Evolves s s2) (h : ScopedFactoryAt s T f) :
    ScopedFactoryAt s2 T f := by
  obtain ⟨d, hl, hsc, hins, hct⟩ := h
  obtain ⟨d2, hl2, h1, h2, h3⟩ := evolves_scoped_def he hl
  exact ⟨d2, hl2, h1.trans hsc, h2.trans hins, h3.trans hct⟩

/-- How one resolver call can change scope `j`'s cache entry for a
fresh-allocating Scoped factory `T`: either it is untouched, or it is
overwritten with an object allocated during the call (its id lies in the
counter interval of the call). -/
def MintPres (T : GoType) (f : Factory) (st st2 : Container × Cache × Nat) :
    Prop :=
  (ScopedFactoryAt st.1.services T f → ScopedFactoryAt st2.1.services T f) ∧
  st.2.2 ≤ st2.2.2 ∧
  (ScopedFactoryAt st.1.services T f →
    alookup st2.2.1 T = alookup st.2.1 T ∨
    ∃ m, st.2.2 ≤ m ∧ m < st2.2.2 ∧ alookup st2.2.1 T = some (.obj m))

theorem MintPres.mrefl (T : GoType) (f : Factory) (st : Container × Cache × Nat) :
    MintPres T f st st :=
  ⟨id, Nat.le_refl _, fun _ => Or.inl rfl⟩

theorem MintPres.mtrans {T : GoType} {f : Factory}
    {a b c : Container × Cache × Nat} (h1 : MintPres T f a b)
    (h2 : MintPres T f b c) : MintPres T f a c := by
  obtain ⟨hT1, hc1, hm1⟩ := h1
  obtain ⟨hT2, hc2, hm2⟩ := h2
  refine ⟨hT2 ∘ hT1, Nat.le_trans hc1 hc2, ?_⟩
  intro hT
  rcases hm2 (hT1 hT) with he2 | ⟨m2, hm2a, hm2b, he2⟩
  · rcases hm1 hT with he1 | ⟨m, hma, hmb, he⟩
    · exact Or.inl (he2.trans he1)
    · exact Or.inr ⟨m, hma, Nat.lt_of_lt_of_le hmb hc2, he2.trans he⟩
  · exact Or.inr ⟨m2, Nat.le_trans hc1 hm2a, hm2b, he2⟩

theorem sresolve_mint (T : GoType) (f : Factory)
    (hfresh : ∀ args n, f.build args n = .obj n) :
    ∀ (fuel : Nat) (c : Container) (cache : Cache) (ctr : Nat) (u : GoType)
      (track : List GoType),
      MintPres T f (c, cache, ctr) ((sresolve fuel c cache ctr u track).2) := by
  intro fuel
  induction fuel with
  | zero => intro c cache ctr u track; exact MintPres.mrefl T f _
  | succ fuel ih =>
    intro c cache ctr u track
    rw [sresolve]
    cases hl : alookup c.services u with
    | none => exact MintPres.mrefl T f _
    | some d =>
      dsimp only
      by_cases hm : u ∈ track
      · rw [if_pos hm]; exact MintPres.mrefl T f _
      · rw [if_neg hm]
        by_cases hi1 : d.isInstance = true ∧ d.scope = .Singleton
        · rw [if_pos hi1]; exact MintPres.mrefl T f _
        · rw [if_neg hi1]
          by_cases hi2 : d.isInstance = true ∧ d.scope = .Scoped
          · rw [if_pos hi2]
            have hset : MintPres T f (c, cache, ctr)
                (c, setCache cache u d.inst, ctr) := by
              refine ⟨id, Nat.le_refl _, ?_⟩
              intro hT
              obtain ⟨dT, hlT, _, hinsT, _⟩ := hT
              have hut : u ≠ T := by
                intro he
                subst he
                rw [hlT] at hl
                injection hl with hl
                rw [hl] at hinsT
                rw [hi2.1] at hinsT
                cases hinsT
              exact Or.inl (alookup_setCache_ne _ _ _ _ (Ne.symm hut))
            cases hc : alookup cache u with
            | some v =>
              dsimp only
              by_cases hval : v.IsValid = true
              · rw [if_pos hval]; exact MintPres.mrefl T f _
              · rw [if_neg hval]; exact hset
            | none => exact hset
          · rw [if_neg hi2]
            by_cases hsg : d.scope = .Singleton ∧ d.inst.IsValid = true
            · rw [if_pos hsg]; exact MintPres.mrefl T f _
            · rw [if_neg hsg]
              cases hh : (if d.scope = .Scoped then
                  match alookup cache u with
                  | some v => if v.IsValid then some v else none
                  | none => none
                else none) with
              | some v => exact MintPres.mrefl T f _
              | none =>
                dsimp only
                cases hct : d.ctor with
                | none => exact MintPres.mrefl T f _
                | some fd =>
                  have hP := assembleParams_pres
                    (σ := Container × Cache × Nat) (fun st => st.1.services)
                    (fun st => st.1.namedServices)
                    (fun st w => sresolve fuel st.1 st.2.1 st.2.2 w (u :: track))
                    (MintPres T f) (MintPres.mrefl T f)
                    (fun _ _ _ ha hb => MintPres.mtrans ha hb)
                    (fun st w => ih st.1 st.2.1 st.2.2 w (u :: track))
                    (c, cache, ctr) fd.paramTypes
                  have hPs := assembleParams_pres
                    (σ := Container × Cache × Nat) (fun st => st.1.services)
                    (fun st => st.1.namedServices)
                    (fun st w => sresolve fuel st.1 st.2.1 st.2.2 w (u :: track))
                    (ScopePres (u :: track)) (ScopePres.srefl _)
                    (fun _ _ _ ha hb => ScopePres.strans ha hb)
                    (fun st w => sresolve_pres fuel st.1 st.2.1 st.2.2 w (u :: track))
                    (c, cache, ctr) fd.paramTypes
                  rcases hA : assembleParams (σ := Container × Cache × Nat)
                      (fun st => st.1.services) (fun st => st.1.namedServices)
                      (fun st w => sresolve fuel st.1 st.2.1 st.2.2 w (u :: track))
                      (c, cache, ctr) fd.paramTypes with ⟨r, cA, cacheA, ctrA⟩
                  rw [hA] at hP hPs
                  dsimp only
                  rw [hA]
                  cases r with
                  | error e => exact hP
                  | ok args =>
                    dsimp only
                    by_cases hrt : fd.retTypes.length ≠ 1
                    · rw [if_pos hrt]
                      exact ⟨hP.1, Nat.le_trans hP.2.1 (Nat.le_succ _), fun hT =>
                        (hP.2.2 hT).elim Or.inl (fun ⟨m, hma, hmb, he⟩ =>
                          Or.inr ⟨m, hma, Nat.lt_succ_of_lt hmb, he⟩)⟩
                    · rw [if_neg hrt]
                      have hctrA : ctr ≤ ctrA := hPs.2.2.2.2.2
                      by_cases hsg2 : d.scope = .Singleton
                      · rw [if_pos hsg2]
                        rw [if_neg (fun h => by rw [hsg2] at h; cases h)]
                        refine ⟨?_, Nat.le_trans hctrA (Nat.le_succ _), ?_⟩
                        · intro hT
                          have hins : d.isInstance = false := by
                            rcases Bool.eq_false_or_eq_true d.isInstance with h | h
                            · exact absurd ⟨h, hsg2⟩ hi1
                            · exact h
                          have hluA : alookup cA.services u = some d :=
                            (hPs.2.2.1 u (List.mem_cons_self u track)).trans hl
                          exact (hP.1 hT).stableF (Evolves.fillSlot _ hluA hins)
                        · intro hT
                          rcases hP.2.2 hT with he | ⟨m, hma, hmb, he⟩
                          · exact Or.inl he
                          · exact Or.inr ⟨m, hma, Nat.lt_succ_of_lt hmb, he⟩
                      · rw [if_neg hsg2]
                        by_cases hscd : d.scope = .Scoped
                        · rw [if_pos hscd]
                          refine ⟨fun hT => hP.1 hT,
                            Nat.le_trans hctrA (Nat.le_succ _), ?_⟩
                          intro hT
                          obtain ⟨dT, hlT, hscT, hinsT, hctT⟩ := hT
                          by_cases hut : u = T
                          · subst hut
                            rw [hlT] at hl
                            injection hl with hl
                            rw [← hl] at hct
                            rw [hctT] at hct
                            injection hct with hct
                            rw [← hct, hfresh args ctrA]
                            exact Or.inr ⟨ctrA, hctrA, Nat.lt_succ_self _,
                              alookup_setCache_self _ _ _⟩
                          · rw [alookup_setCache_ne _ _ _ _ (Ne.symm hut)]
                            rcases hP.2.2 ⟨dT, hlT, hscT, hinsT, hctT⟩ with he |
                              ⟨m, hma, hmb, he⟩
                            · exact Or.inl he
                            · exact Or.inr ⟨m, hma, Nat.lt_succ_of_lt hmb, he⟩
                        · rw [if_neg hscd]
                          refine ⟨fun hT => hP.1 hT,
                            Nat.le_trans hctrA (Nat.le_succ _), ?_⟩
                          intro hT
                          rcases hP.2.2 hT with he | ⟨m, hma, hmb, he⟩
                          · exact Or.inl he
                          · exact Or.inr ⟨m, hma, Nat.lt_succ_of_lt hmb, he⟩

/-- A successful scope resolve of a fresh-allocating Scoped factory with no
per-scope cache entry returns a fresh object: one whose allocation id lies
in the call's counter interval. -/
theorem sresolve_fresh_value (fuel : Nat) (c c2 : Container)
    (cache cache2 : Cache) (ctr ctr2 : Nat) (T : GoType) (track : List GoType)
    (v : Value) (f : Factory) (hT : ScopedFactoryAt c.services T f)
    (hfresh : ∀ args n, f.build args n = .obj n)
    (hc : alookup cache T = none)
    (hres : sresolve fuel c cache ctr T track = (.ok v, c2, cache2, ctr2)) :
    ∃ m, v = .obj m ∧ ctr ≤ m ∧ m < ctr2 := by
  obtain ⟨d, hl, hsc, hins, hct⟩ := hT
  cases fuel with
  | zero => rw [sresolve] at hres; cases hres
  | succ fuel =>
    rw [sresolve, hl] at hres
    dsimp only at hres
    by_cases hm : T ∈ track
    · rw [if_pos hm] at hres; cases hres
    · rw [if_neg hm] at hres
      rw [if_neg (fun h => by rw [hins] at h; exact absurd h.1 (by simp))] at hres
      rw [if_neg (fun (h : d.isInstance = true ∧ _) => by
        rw [hins] at h; exact absurd h.1 (by simp))] at hres
      rw [if_neg (fun h => by rw [hsc] at h; exact absurd h.1 (by simp))] at hres
      rw [if_pos hsc, hc] at hres
      dsimp only at hres
      rw [hct] at hres
      dsimp only at hres
      rcases hA : assembleParams (σ := Container × Cache × Nat)
          (fun st => st.1.services) (fun st => st.1.namedServices)
          (fun st u => sresolve fuel st.1 st.2.1 st.2.2 u (T :: track))
          (c, cache, ctr) f.paramTypes with ⟨r, cA, cacheA, ctrA⟩
      rw [hA] at hres
      cases r with
      | error e => cases hres
      | ok args =>
        dsimp only at hres
        by_cases hrt : f.retTypes.length ≠ 1
        · rw [if_pos hrt] at hres; cases hres
        · rw [if_neg hrt] at hres
          injection hres with h1 h2
          injection h1 with h1
          injection h2 with h2 h3
          injection h3 with h3 h4
          have hPs := assembleParams_pres
            (σ := Container × Cache × Nat) (fun st => st.1.services)
            (fun st => st.1.namedServices)
            (fun st u => sresolve fuel st.1 st.2.1 st.2.2 u (T :: track))
            (ScopePres (T :: track)) (ScopePres.srefl _)
            (fun _ _ _ ha hb => ScopePres.strans ha hb)
            (fun st u => sresolve_pres fuel st.1 st.2.1 st.2.2 u (T :: track))
            (c, cache, ctr) f.paramTypes
          rw [hA] at hPs
          refine ⟨ctrA, by rw [← h1, hfresh], hPs.2.2.2.2.2, ?_⟩
          omega

/-- The cross-scope freshness invariant: `T` is a fresh-allocating Scoped
factory, the counter has moved past `n1`, and scope `j`'s cache entry for
`T` (if the scope exists and the entry is present) is an object allocated
after `n1`. -/
def MintInv (w : World) (T : GoType) (f : Factory) (j n1 : Nat) : Prop :=
  ScopedFactoryAt w.c.services T f ∧ n1 < w.ctr ∧
  ∀ cache, w.scopes.get? j = some cache →
    alookup cache T = none ∨ ∃ m, n1 < m ∧ alookup cache T = some (.obj m)

theorem stepW_pres_mint (T : GoType) (f : Factory)
    (hfresh : ∀ args n, f.build args n = .obj n) (w : World) (op : Op)
    (j n1 : Nat) (h : MintInv w T f j n1) : MintInv (stepW w op) T f j n1 := by
  obtain ⟨hT, hn, hj⟩ := h
  cases op with
  | newScope =>
    refine ⟨hT, hn, ?_⟩
    intro cache hgc
    rw [stepW] at hgc
    by_cases hjl : j < w.scopes.length
    · rw [List.get?_append hjl] at hgc
      exact hj cache hgc
    · by_cases hje : j = w.scopes.length
      · subst hje
        rw [List.get?_concat_length] at hgc
        injection hgc with hgc
        rw [← hgc]
        exact Or.inl rfl
      · exfalso
        have hnone : (w.scopes ++ [NewScope]).get? j = none := by
          rw [List.get?_eq_none]
          rw [List.length_append]
          simp only [List.length_cons, List.length_nil]
          omega
        rw [hnone] at hgc
        cases hgc
  | res fuel s t =>
    cases s with
    | root =>
      have hPr := cresolve_pres fuel w.c w.ctr t []
      exact ⟨hT.stableF hPr.1, Nat.lt_of_lt_of_le hn hPr.2.2.2, hj⟩
    | scope k =>
      simp only [stepW, doResolve]
      cases hck : w.scopes.get? k with
      | none => exact ⟨hT, hn, hj⟩
      | some cachek =>
        dsimp only
        have hPs := sresolve_pres fuel w.c cachek w.ctr t []
        have hM := sresolve_mint T f hfresh fuel w.c cachek w.ctr t []
        refine ⟨hT.stableF hPs.1, Nat.lt_of_lt_of_le hn hPs.2.2.2.2.2, ?_⟩
        intro cache hgc
        by_cases hkj : k = j
        · subst hkj
          rw [List.get?_set_eq_of_lt _ ((List.get?_eq_some.mp hck).fst)] at hgc
          injection hgc with hgc
          rcases hM.2.2 hT with he | ⟨m, hma, hmb, he⟩
          · rw [← hgc, he]
            exact hj cachek hck
          · rw [← hgc]
            exact Or.inr ⟨m, Nat.lt_of_lt_of_le hn hma, he⟩
        · rw [List.get?_set_ne _ _ hkj] at hgc
          exact hj cache hgc

theorem runW_pres_mint (T : GoType) (f : Factory)
    (hfresh : ∀ args n, f.build args n = .obj n) (w : World) (ops : List Op)
    (j n1 : Nat) (h : MintInv w T f j n1) : MintInv (runW w ops) T f j n1 := by
  induction ops generalizing w with
  | nil => exact h
  | cons op rest ih => exact ih (stepW w op) (stepW_pres_mint T f hfresh w op j n1 h)

/-- A pre-built Scoped instance is handed to every scope: two distinct
fresh scopes resolve it to the same stored value, refuting the claim that
different scopes always hold distinct values for a Scoped binding. -/
def exCSc : Container :=
  getOk (NewContainer.registerInstance (some (.base 50, .obj 9)) .Scoped)

theorem scoped_identity_cex :
    (doResolve 5 ⟨exCSc, [[], []], 0⟩ (.scope 0) (.base 50)).1 = .ok (.obj 9) ∧
    (doResolve 5 (doResolve 5 ⟨exCSc, [[], []], 0⟩ (.scope 0) (.base 50)).2
      (.scope 1) (.base 50)).1 = .ok (.obj 9) :=
  ⟨rfl, rfl⟩

/-- C7 (amended).  Scoped identity and isolation: any two successful
resolves of a Scoped binding performed within the same scope — with
arbitrary other resolves and scope creations interleaved — return the
identical value; and for a factory-backed Scoped binding whose constructor
allocates fresh state, resolves performed in two distinct scopes (whose
caches do not already hold the binding) return distinct values.  (A
pre-built Scoped instance is shared by every scope, so distinctness does
not hold for every Scoped binding.) -/
theorem scoped_identity :
    (∀ (w0 w1 w2 w3 : World) (i : Nat) (T : GoType) (d : ServiceDef)
      (v1 v2 : Value) (f1 f2 : Nat) (ops : List Op),
      alookup w0.c.services T = some d → GoodScoped d →
      doResolve f1 w0 (.scope i) T = (.ok v1, w1) →
      runW w1 ops = w2 →
      doResolve f2 w2 (.scope i) T = (.ok v2, w3) →
      v1 = v2) ∧
    (∀ (w0 w1 w2 w3 : World) (i j : Nat) (T : GoType) (f : Factory)
      (v1 v2 : Value) (f1 f2 : Nat) (ops : List Op),
      i ≠ j →
      ScopedFactoryAt w0.c.services T f →
      (∀ args n, f.build args n = .obj n) →
      (∀ cache, w0.scopes.get? i = some cache → alookup cache T = none) →
      (∀ cache, w0.scopes.get? j = some cache → alookup cache T = none) →
      doResolve f1 w0 (.scope i) T = (.ok v1, w1) →
      runW w1 ops = w2 →
      doResolve f2 w2 (.scope j) T = (.ok v2, w3) →
      v1 ≠ v2) := by
  constructor
  · intro w0 w1 w2 w3 i T d v1 v2 f1 f2 ops hl hg h1 hops h2
    have hfix1 := doResolve_scoped_success_fixed f1 w0 w1 i T v1 d hl hg h1
    have hfix2 : ScopedCacheFixed w2 i T v1 :=
      hops ▸ runW_pres_scached w1 ops i T v1 hfix1
    have he1 : Evolves w0.c.services w1.c.services := by
      have hde := doResolve_evolves f1 w0 (.scope i) T
      rw [h1] at hde
      exact hde
    have he2 : Evolves w1.c.services w2.c.services := by
      have hre := runW_evolves w1 ops
      rw [hops] at hre
      exact hre
    obtain ⟨d2, hl2, hsc2, _, _⟩ := evolves_scoped_def (he1.etrans he2) hl
    exact (doResolve_scached_val f2 w2 w3 i T v1 v2 d2 hfix2 hl2
      (hsc2.trans hg.1) h2).symm
  · intro w0 w1 w2 w3 i j T f v1 v2 f1 f2 ops hij hT hfresh hci hcj h1 hops h2
    simp only [doResolve] at h1
    cases hcki : w0.scopes.get? i with
    | none =>
      rw [hcki] at h1
      dsimp only at h1
      cases congrArg Prod.fst h1
    | some cachei =>
      rw [hcki] at h1
      dsimp only at h1
      rcases hr1 : sresolve f1 w0.c cachei w0.ctr T [] with ⟨r, cB, cacheB, ctrB⟩
      rw [hr1] at h1
      cases r with
      | error e => cases congrArg Prod.fst h1
      | ok v0 =>
        have hv1 := congrArg Prod.fst h1
        injection hv1 with hv1
        obtain ⟨n1, hvobj, hn1a, hn1b⟩ := sresolve_fresh_value f1 w0.c cB cachei
          cacheB w0.ctr ctrB T [] v0 f hT hfresh (hci cachei hcki) hr1
        have hw1 : w1 = ⟨cB, w0.scopes.set i cacheB, ctrB⟩ :=
          (congrArg Prod.snd h1).symm
        have hMw1 : MintInv w1 T f j n1 := by
          rw [hw1]
          have hev : Evolves w0.c.services cB.services := by
            have := (sresolve_pres f1 w0.c cachei w0.ctr T []).1
            rw [hr1] at this
            exact this
          refine ⟨hT.stableF hev, hn1b, ?_⟩
          intro cache hgc
          rw [List.get?_set_ne _ _ hij] at hgc
          exact Or.inl (hcj cache hgc)
        have hMw2 : MintInv w2 T f j n1 :=
          hops ▸ runW_pres_mint T f hfresh w1 ops j n1 hMw1
        simp only [doResolve] at h2
        cases hckj : w2.scopes.get? j with
        | none =>
          rw [hckj] at h2
          dsimp only at h2
          cases congrArg Prod.fst h2
        | some cachej =>
          rw [hckj] at h2
          dsimp only at h2
          rcases hr2 : sresolve f2 w2.c cachej w2.ctr T [] with ⟨r2, cC, cacheC, ctrC⟩
          rw [hr2] at h2
          cases r2 with
          | error e => cases congrArg Prod.fst h2
          | ok v20 =>
            have hv2 := congrArg Prod.fst h2
            injection hv2 with hv2
            rcases hMw2.2.2 cachej hckj with hnone | ⟨m, hmn, hentry⟩
            · obtain ⟨m2, hm2obj, hm2a, hm2b⟩ := sresolve_fresh_value f2 w2.c cC
                cachej cacheC w2.ctr ctrC T [] v20 f hMw2.1 hfresh hnone hr2
              rw [← hv1, ← hv2, hvobj, hm2obj]
              intro he
              injection he with he
              have hlt := hMw2.2.1
              omega
            · obtain ⟨d2, hl2, hsc2, _, _⟩ := hMw2.1
              cases f2 with
              | zero => rw [sresolve] at hr2; cases hr2
              | succ f2b =>
                rw [sresolve_scoped_cached f2b w2.c cachej w2.ctr T [] (.obj m)
                  d2 hl2 hsc2 hentry rfl (by simp)] at hr2
                have ha := congrArg Prod.fst hr2
                injection ha with ha
                rw [← hv1, ← hv2, hvobj, ← ha]
                intro he
                injection he with he
                omega

/-- A parameterless fresh-allocating Scoped factory for the witness. -/
def exFSc : Factory :=
  { paramTypes := [], retTypes := [.base 60], build := fun _ n => .obj n }

def exCScf : Container := getOk (NewContainer.register (some (.func exFSc)) .Scoped)

/-- Initial world with two scopes. -/
def exWSc : World := ⟨exCScf, [[], []], 0⟩

/-- After resolving `base 60` in scope 0: cached there as `obj 0`. -/
def exWSc1 : World := ⟨exCScf, [[(.base 60, .obj 0)], []], 1⟩

/-- After additionally resolving in scope 1: cached there as `obj 1`. -/
def exWSc2 : World :=
  ⟨exCScf, [[(.base 60, .obj 0)], [(.base 60, .obj 1)]], 2⟩

theorem scoped_identity_witness :
    (alookup exWSc.c.services (.base 60) =
       some (freshFactoryDef exFSc .Scoped (.base 60)) ∧
     GoodScoped (freshFactoryDef exFSc .Scoped (.base 60)) ∧
     doResolve 5 exWSc (.scope 0) (.base 60) = (.ok (.obj 0), exWSc1) ∧
     doResolve 5 exWSc1 (.scope 0) (.base 60) = (.ok (.obj 0), exWSc1) ∧
     (Value.obj 0 = Value.obj 0)) ∧
    (ScopedFactoryAt exWSc.c.services (.base 60) exFSc ∧
     doResolve 5 exWSc1 (.scope 1) (.base 60) = (.ok (.obj 1), exWSc2) ∧
     Value.obj 0 ≠ Value.obj 1) := by
  have hg : GoodScoped (freshFactoryDef exFSc .Scoped (.base 60)) := by
    refine ⟨rfl, ?_, ?_⟩
    · intro h
      simp [freshFactoryDef] at h
    · intro _
      exact ⟨exFSc, rfl, fun _ _ => rfl⟩
  have hT : ScopedFactoryAt exWSc.c.services (.base 60) exFSc :=
    ⟨freshFactoryDef exFSc .Scoped (.base 60), rfl, rfl, rfl, rfl⟩
  have hcachei : ∀ cache, exWSc.scopes.get? 0 = some cache →
      alookup cache (.base 60) = none := by
    intro cache hgc
    injection hgc with h
    rw [← h]
    rfl
  have hcachej : ∀ cache, exWSc.scopes.get? 1 = some cache →
      alookup cache (.base 60) = none := by
    intro cache hgc
    injection hgc with h
    rw [← h]
    rfl
  refine ⟨⟨rfl, hg, rfl, rfl, ?_⟩, hT, rfl, ?_⟩
  · exact scoped_identity.1 exWSc exWSc1 exWSc1 exWSc1 0 (.base 60)
      (freshFactoryDef exFSc .Scoped (.base 60)) (.obj 0) (.obj 0) 5 5 []
      rfl hg rfl rfl rfl
  · exact scoped_identity.2 exWSc exWSc1 exWSc1 exWSc2 0 1 (.base 60) exFSc
      (.obj 0) (.obj 1) 5 5 [] (by omega) hT (fun _ _ => rfl)
      hcachei hcachej rfl rfl rfl

end Gofac
